import Mathlib

/-!
Shallow embedding of the transactive-network market code of
`GridServices/TransactiveControl` (files `TNT_Version3/tent/auction.py`,
`TNT_Version3/tent/day_ahead_auction.py`,
`TNT_Version3/tent/temperature_forecast_model.py`,
`TNT_Version3/tent/utils/time_series_buffer.py`, and
`TransactiveNodeAgent/transactive_node/tcc_model.py`), together with theorems
settling the behavioral claims about those functions.

Times, prices and powers are modeled as `Int` (minutes / abstract units);
object identity is modeled by explicit `id`/`name` fields; Python exceptions
are modeled as `Except.error`; calls into external collaborator models
(neighbor and asset methods, the balancer, the production interpolator) are
recorded as trace events or abstracted as function parameters.
-/

namespace VolttronTNS

/-- Direction of a neighbor agent relative to the node (`tent/direction.py`):
`upstream`, `downstream`, plus an `unknown` placeholder standing for any
configured value that is neither of the two recognized directions. -/
inductive Direction where
  | upstream
  | downstream
  | unknown
deriving DecidableEq, Repr

/-- Externally observable calls made by an auction state tick: calls into
neighbor models, the balancer, and warnings logged. -/
inductive Event where
  | receiveSignal (neighbor : String)
  | scheduleNeighbor (neighbor : String)
  | schedulePowerCall (neighbor : String)
  | updateVerticesCall (neighbor : String)
  | balanceCall
  | prepSignal (neighbor : String)
  | sendSignal (neighbor : String) (topic : String)
  | warnUpstreamCount
  | warnDuplicatePower (asset : String) (interval : String)
deriving DecidableEq, Repr

/-- A neighbor agent model as read and written by `Auction.while_in_market_lead`
and `Auction.while_in_delivery_lead` (`tent/auction.py`): its direction,
transactivity flag, publish topic, and the `timeInterval` names of the records
in its `receivedSignal` list (the only parts of the records those ticks read). -/
structure Neighbor where
  name : String
  upOrDown : Direction
  transactive : Bool
  receivedSignalIntervals : List String
  publishTopic : String
deriving DecidableEq, Repr

/-- `[x for x in my_transactive_node.neighbors if x.upOrDown == Direction.upstream]`. -/
def upstreamAgents (neighbors : List Neighbor) : List Neighbor :=
  neighbors.filter (fun x => x.upOrDown == Direction.upstream)

/-- `[x for x in my_transactive_node.neighbors if x.upOrDown == Direction.downstream]`. -/
def downstreamAgents (neighbors : List Neighbor) : List Neighbor :=
  neighbors.filter (fun x => x.upOrDown == Direction.downstream)

/-- The neighbors whose direction is neither upstream nor downstream. -/
def unassignedAgents (neighbors : List Neighbor) : List Neighbor :=
  neighbors.filter (fun x =>
    !(x.upOrDown == Direction.upstream) && !(x.upOrDown == Direction.downstream))

/-- The coercion loop of `auction.py` lines 152-155 and 247-250: every neighbor
whose direction is neither upstream nor downstream is assigned the downstream
direction in place (a warning is logged for each). -/
def coerceUnassigned (neighbors : List Neighbor) : List Neighbor :=
  neighbors.map (fun x =>
    if x.upOrDown == Direction.upstream || x.upOrDown == Direction.downstream then x
    else { x with upOrDown := Direction.downstream })

/-- `auction.py` lines 180-181 (and 275): the active market time-interval names
that are not among the time intervals of the neighbor's received records. -/
def missingIntervalNames (timeIntervalNames : List String) (agent : Neighbor) : List String :=
  timeIntervalNames.filter (fun nm => !(agent.receivedSignalIntervals.contains nm))

/-- Result of one `Auction.while_in_market_lead` tick: the node's neighbor list
after direction coercions, the trace of neighbor calls, and the market's
`_stateIsCompleted` flag. -/
structure MarketLeadResult where
  neighbors : List Neighbor
  events : List Event
  stateIsCompleted : Bool
deriving DecidableEq, Repr

namespace Auction

/-- Shallow embedding of `Auction.while_in_market_lead` (`auction.py` lines
134-227). Inputs: the market's active time-interval names, the node's neighbor
list, and the market's `_stateIsCompleted` flag on entry.  A raised exception
(the `raise RuntimeWarning` of line 159) is modeled as `Except.error
(message, neighbors-as-mutated-at-raise-time)`, since the direction coercion of
lines 152-155 precedes the raise. -/
def while_in_market_lead (timeIntervalNames : List String) (neighbors : List Neighbor)
    (stateIsCompleted : Bool) : Except (String × List Neighbor) MarketLeadResult :=
  let ups := upstreamAgents neighbors
  let downs := downstreamAgents neighbors
  let neighborsAfter := coerceUnassigned neighbors
  if ups.length ≠ 1 then
    Except.error ("There should be precisely one upstream neighbor for an auction market",
      neighborsAfter)
  else
    let pollEvents := downs.filterMap (fun da =>
      if (missingIntervalNames timeIntervalNames da).isEmpty then none
      else some (Event.receiveSignal da.name))
    let allReceived := downs.all (fun da => (missingIntervalNames timeIntervalNames da).isEmpty)
    if allReceived then
      let schedEvents := downs.map (fun da => Event.scheduleNeighbor da.name)
      let upstreamEvents :=
        match ups with
        | [] => []
        | u :: _ =>
          if u.transactive then [Event.prepSignal u.name, Event.sendSignal u.name u.publishTopic]
          else []
      Except.ok ⟨neighborsAfter, pollEvents ++ schedEvents ++ upstreamEvents, true⟩
    else
      Except.ok ⟨neighborsAfter, pollEvents, stateIsCompleted⟩

end Auction

/-- A local asset model as seen by the Negotiation-state methods of
`tent/auction.py`: its name and `scheduleCalculated` flag.  The rest of the
asset's state is mutated only through its `schedule` method, which is
abstracted as a function parameter. -/
structure LocalAsset where
  name : String
  scheduleCalculated : Bool
deriving DecidableEq, Repr

/-- The market and node fields touched by the Negotiation-state methods of
`tent/auction.py`: the market's `converged` and `_stateIsCompleted` flags and
the node's local asset list. -/
structure NegotiationState where
  converged : Bool
  stateIsCompleted : Bool
  localAssets : List LocalAsset
deriving DecidableEq, Repr

namespace Auction

/-- Shallow embedding of `Auction.transition_from_active_to_negotiation`
(`auction.py` lines 70-99).  `sched` abstracts each local asset's `schedule`
method (which may set the asset's `scheduleCalculated` flag).  Returns the new
state together with the trace of `schedule` calls (asset names, in call order);
each call is made on the asset immediately after its `scheduleCalculated` flag
has been set to `False`.  The initial `check_marginal_prices` call touches only
the market's marginal prices, which are not part of `NegotiationState`. -/
def transition_from_active_to_negotiation (sched : LocalAsset → LocalAsset)
    (st : NegotiationState) : NegotiationState × List String :=
  ({ converged := false
     stateIsCompleted := st.stateIsCompleted
     localAssets := st.localAssets.map (fun a => sched { a with scheduleCalculated := false }) },
   st.localAssets.map (fun a => a.name))

/-- Shallow embedding of `Auction.while_in_negotiation` (`auction.py` lines
102-130): before convergence, checks whether all local assets have finished
scheduling and, if so, sets the `converged` and `_stateIsCompleted` flags;
after convergence it does nothing. -/
def while_in_negotiation (st : NegotiationState) : NegotiationState :=
  if st.converged = false then
    if st.localAssets.all (fun a => a.scheduleCalculated) then
      { st with converged := true, stateIsCompleted := true }
    else st
  else st

end Auction

/-- An `IntervalValue` holding a numeric value (a marginal price or a scheduled
power) tagged to one time-interval name of a single market
(`tent/interval_value.py`; the market and calling-object tags coincide for all
entries of a single market's list, so only the interval name and value appear). -/
structure PIntervalValue where
  timeInterval : String
  value : Int
deriving DecidableEq, Repr

/-- `scheduled_power[0].value = power` of `auction.py` lines 334/336: overwrite
in place the value of the first list entry tagged to the given time interval
(the first element of the filtered view aliases that entry). -/
def overwriteFirstByInterval : List PIntervalValue → String → Int → List PIntervalValue
  | [], _, _ => []
  | x :: xs, ti, p =>
    if x.timeInterval == ti then { x with value := p } :: xs
    else x :: overwriteFirstByInterval xs ti p

/-- A local asset as read and written by the asset-rescheduling loop of
`Auction.while_in_delivery_lead`: its name and `scheduledPowers` list. -/
structure DeliveryAsset where
  name : String
  scheduledPowers : List PIntervalValue
deriving DecidableEq, Repr

namespace Auction

/-- One iteration of the inner loop of `auction.py` lines 315-338: look up the
cleared marginal price of the interval (`price[0]` raises IndexError when no
price exists), interpolate the asset's power at it (`production`, abstracted as
`prod` over the asset name since the loop does not modify active vertices), and
create/overwrite the scheduled-power entry, warning on duplicates.  The
accumulator carries the asset's `scheduledPowers` and the warnings emitted so
far. -/
def rescheduleAssetInterval (prod : String → Int → String → Int)
    (marginalPrices : List PIntervalValue) (assetName : String)
    (acc : List PIntervalValue × List Event) (ti : String) :
    Except String (List PIntervalValue × List Event) :=
  match marginalPrices.filter (fun mp => mp.timeInterval == ti) with
  | [] => Except.error "IndexError: list index out of range"
  | mp :: _ =>
    let power := prod assetName mp.value ti
    let matching := acc.1.filter (fun x => x.timeInterval == ti)
    if matching.length = 0 then
      Except.ok (acc.1 ++ [⟨ti, power⟩], acc.2)
    else if matching.length = 1 then
      Except.ok (overwriteFirstByInterval acc.1 ti power, acc.2)
    else
      Except.ok (overwriteFirstByInterval acc.1 ti power,
        acc.2 ++ [Event.warnDuplicatePower assetName ti])

/-- The full `for time_interval in self.timeIntervals` loop of `auction.py`
lines 315-338 for one local asset. -/
def rescheduleAsset (prod : String → Int → String → Int)
    (marginalPrices : List PIntervalValue) (timeIntervalNames : List String)
    (a : DeliveryAsset) : Except String (DeliveryAsset × List Event) := do
  let out ← timeIntervalNames.foldlM (rescheduleAssetInterval prod marginalPrices a.name)
    (a.scheduledPowers, [])
  return ({ a with scheduledPowers := out.1 }, out.2)

end Auction

/-- The market and node fields read and written by
`Auction.while_in_delivery_lead` (`auction.py` lines 229-357). -/
structure DeliveryState where
  timeIntervalNames : List String
  marginalPrices : List PIntervalValue
  neighbors : List Neighbor
  localAssets : List DeliveryAsset
  stateIsCompleted : Bool
deriving DecidableEq, Repr

/-- Result of one `Auction.while_in_delivery_lead` tick. -/
structure DeliveryResult where
  neighbors : List Neighbor
  marginalPrices : List PIntervalValue
  localAssets : List DeliveryAsset
  events : List Event
  stateIsCompleted : Bool
deriving DecidableEq, Repr

namespace Auction

/-- Shallow embedding of `Auction.while_in_delivery_lead` (`auction.py` lines
229-357).  `prod` abstracts the `production` interpolation helper;
`balanceFn` abstracts `Market.balance` (defined in `market.py`, outside src/),
which rewrites the market's marginal prices from the assembled vertices.  The
`upstream_agents[0]` indexing of line 261 raises IndexError when there is no
upstream agent; raised exceptions are modeled as `Except.error (message,
neighbors-as-mutated-at-raise-time)` since the direction coercion of lines
247-250 precedes them. -/
def while_in_delivery_lead (prod : String → Int → String → Int)
    (balanceFn : List PIntervalValue → List String → List PIntervalValue)
    (st : DeliveryState) : Except (String × List Neighbor) DeliveryResult :=
  let downs := downstreamAgents st.neighbors
  let ups := upstreamAgents st.neighbors
  let neighborsAfter := coerceUnassigned st.neighbors
  let warnEvents := if ups.length ≠ 1 then [Event.warnUpstreamCount] else []
  match ups with
  | [] => Except.error ("IndexError: list index out of range", neighborsAfter)
  | upstreamAgent :: _ =>
    let received :=
      if upstreamAgent.transactive then
        if (missingIntervalNames st.timeIntervalNames upstreamAgent).isEmpty then
          (true, ([] : List Event))
        else (false, [Event.receiveSignal upstreamAgent.name])
      else (true, ([] : List Event))
    if received.1 then
      let clearingEvents := [Event.updateVerticesCall upstreamAgent.name, Event.balanceCall,
        Event.schedulePowerCall upstreamAgent.name]
      let newPrices := balanceFn st.marginalPrices st.timeIntervalNames
      match st.localAssets.mapM (rescheduleAsset prod newPrices st.timeIntervalNames) with
      | Except.error e => Except.error (e, neighborsAfter)
      | Except.ok rescheduled =>
        let downstreamEvents := downs.flatMap (fun da =>
          [Event.schedulePowerCall da.name, Event.prepSignal da.name,
           Event.sendSignal da.name da.publishTopic])
        Except.ok { neighbors := neighborsAfter
                    marginalPrices := newPrices
                    localAssets := rescheduled.map (fun p => p.1)
                    events := warnEvents ++ received.2 ++ clearingEvents
                      ++ rescheduled.flatMap (fun p => p.2) ++ downstreamEvents
                    stateIsCompleted := true }
    else
      Except.ok { neighbors := neighborsAfter
                  marginalPrices := st.marginalPrices
                  localAssets := st.localAssets
                  events := warnEvents ++ received.2
                  stateIsCompleted := st.stateIsCompleted }

end Auction

/-- A market as referenced by `TCCModel.set_scheduled_power` (`tcc_model.py`):
its identity, its time-interval names, and its marginal prices. -/
structure MarketRef where
  id : Nat
  timeIntervalNames : List String
  marginalPrices : List PIntervalValue
deriving DecidableEq, Repr

/-- A `ScheduledPower` IntervalValue of a TCC asset: the market it is keyed to,
the time-interval name, and the power value. -/
structure SPEntry where
  marketId : Nat
  timeInterval : String
  value : Int
deriving DecidableEq, Repr

/-- Modelled from the spec: `find_obj_by_ti` of `helpers.py` (not under src/)
returns the `IntervalValue` of the list tagged to the given time interval —
per the spec's data model, `IntervalValue` is keyed by `(market, timeInterval)`
and one current value is expected per key (here: the first match, if any). -/
def find_obj_by_ti (l : List PIntervalValue) (ti : String) : Option PIntervalValue :=
  (l.filter (fun x => x.timeInterval == ti)).head?

namespace TCCModel

/-- Shallow embedding of `TCCModel.set_scheduled_power` (`tcc_model.py` lines
701-736), restricted to the fields it writes that matter here: the asset's
`scheduledPowers` list and `scheduleCalculated` flag.  `tccCurvesPresent`
states whether `self.tcc_curves` is not `None` after `set_tcc_curves`; `prod`
abstracts the `production` interpolation at the market's marginal price;
`isExpired` maps a market id to whether that market's state is `Expired`.  The
`update_vertices` call touches only `activeVertices` and the
`calculate_reserve_margin` call only `reserveMargins`, neither of which is part
of this state.  When a marginal price is missing, `find_obj_by_ti` returns
`None` and the `marginal_price.value` access raises (modeled as an error). -/
def set_scheduled_power (prod : Int → String → Int) (defaultPower : Int)
    (tccCurvesPresent : Bool) (isExpired : Nat → Bool) (mkt : MarketRef)
    (scheduledPowers : List SPEntry) (scheduleCalculated : Bool) :
    Except String (List SPEntry × Bool) := do
  let scheduleCalculated := if tccCurvesPresent then true else scheduleCalculated
  let newEntries ← mkt.timeIntervalNames.mapM (fun ti => do
    let value ←
      if tccCurvesPresent then
        match find_obj_by_ti mkt.marginalPrices ti with
        | none => Except.error "AttributeError: NoneType object has no attribute value"
        | some mp => Except.ok (prod mp.value ti)
      else
        Except.ok defaultPower
    return SPEntry.mk mkt.id ti value)
  let sps := scheduledPowers ++ newEntries
  return (sps.filter (fun x => !(isExpired x.marketId)), scheduleCalculated)

end TCCModel

/-- A market record as touched by `DayAheadAuction.spawn_markets`
(`day_ahead_auction.py` lines 57-167).  `id` models Python object identity;
`priorMarketInSeries` and `marketToBeRefined` are non-owning references modeled
as ids.  `checkedIntervals` / `checkedMarginalPrices` record that
`check_intervals` / `check_marginal_prices` were invoked on the market (those
methods are defined in `market.py`, which is not under src/; per the spec they
initialize the market's time intervals and marginal prices idempotently). -/
structure SpawnMarket where
  id : Nat
  marketSeriesName : String
  isNewestMarket : Bool
  marketClearingTime : Int
  intervalDuration : Int
  priorMarketInSeries : Option Nat
  marketToBeRefined : Option Nat
  priceModel : Nat
  defaultPrice : Int
  futureHorizon : Int
  checkedIntervals : Bool
  checkedMarginalPrices : Bool
deriving DecidableEq, Repr

/-- The attributes of the spawning `DayAheadAuction` object read by the
real-time cascade: `real_time_duration`, `priceModel`, `defaultPrice` and
`futureHorizon` (times in minutes). -/
structure DayAheadParams where
  realTimeDuration : Int
  priceModel : Nat
  defaultPrice : Int
  futureHorizon : Int
deriving DecidableEq, Repr

/-- The lookup key of `day_ahead_auction.py` lines 98-100: a market of the
"Real-Time Auction" series currently flagged as newest. -/
def isNewestRealTime (m : SpawnMarket) : Bool :=
  m.marketSeriesName == "Real-Time Auction" && m.isNewestMarket

/-- `prior_market = [x for x in markets if x.marketSeriesName == "Real-Time
Auction" and x.isNewestMarket is True]` followed by `prior_market[0]`:
the first match, if any. -/
def findPriorRealTime (markets : List SpawnMarket) : Option SpawnMarket :=
  (markets.filter isNewestRealTime).head?

/-- `prior_market.isNewestMarket = False` (`day_ahead_auction.py` line 113):
the object found by the lookup is an element of the node's market list, so the
assignment clears the flag of the first newest "Real-Time Auction" market in
place. -/
def clearFirstNewestRealTime : List SpawnMarket → List SpawnMarket
  | [] => []
  | m :: ms =>
    if isNewestRealTime m then { m with isNewestMarket := false } :: ms
    else m :: clearFirstNewestRealTime ms

/-- Modelled from the spec: the `RealTimeAuction` constructor (defined in
`real_time_auction.py` / `market.py`, not under src/) stores its keyword
arguments in the market fields of the spec's data model.  The argument values
are those passed at `day_ahead_auction.py` lines 122-155: series name
"Real-Time Auction", `market_clearing_time = interval_start -
timedelta(minutes=5)`, `interval_duration = real_time_market_duration`,
`isNewestMarket` subsequently set `True` (line 148), `priceModel` assigned
after construction (line 141), and `check_intervals` /
`check_marginal_prices` invoked on the new object (lines 152-155, recorded as
flags). -/
def mkRealTimeMarket (id : Nat) (refinedId : Nat) (duration : Int) (priceModel : Nat)
    (defaultPrice : Int) (futureHorizon : Int) (priorId : Option Nat)
    (intervalStart : Int) : SpawnMarket :=
  { id := id
    marketSeriesName := "Real-Time Auction"
    isNewestMarket := true
    marketClearingTime := intervalStart - 5
    intervalDuration := duration
    priorMarketInSeries := priorId
    marketToBeRefined := some refinedId
    priceModel := priceModel
    defaultPrice := defaultPrice
    futureHorizon := futureHorizon
    checkedIntervals := true
    checkedMarginalPrices := true }

/-- The state threaded through the spawning loops: the node's market list
(`this_transactive_node.markets`), a fresh-id supply modeling Python object
identity of newly constructed markets, and `new_market_list` (the markets
spawned by this call, in creation order). -/
structure SpawnState where
  markets : List SpawnMarket
  nextId : Nat
  spawned : List SpawnMarket
deriving DecidableEq, Repr

namespace DayAheadAuction

/-- One iteration of the `while interval_start < interval_end` body of
`day_ahead_auction.py` lines 95-164: find the prior newest "Real-Time Auction"
market (startup fallback to the day-ahead market's own `priceModel` and
`defaultPrice` and to `real_time_market_duration` as horizon when none
exists — the bare `Warning(...)` of line 104 does not raise); clear the prior
market's newest flag; construct the new real-time market; append it to the
node's markets and to `new_market_list`. -/
def spawnOneRealTime (da : DayAheadParams) (refinedId : Nat) (intervalStart : Int)
    (st : SpawnState) : SpawnState :=
  match findPriorRealTime st.markets with
  | none =>
    let nm := mkRealTimeMarket st.nextId refinedId da.realTimeDuration da.priceModel
      da.defaultPrice da.realTimeDuration none intervalStart
    ⟨st.markets ++ [nm], st.nextId + 1, st.spawned ++ [nm]⟩
  | some pm =>
    let nm := mkRealTimeMarket st.nextId refinedId da.realTimeDuration pm.priceModel
      pm.defaultPrice pm.futureHorizon (some pm.id) intervalStart
    ⟨clearFirstNewestRealTime st.markets ++ [nm], st.nextId + 1, st.spawned ++ [nm]⟩

/-- Fuel-driven body of the `while interval_start < interval_end` loop of
`day_ahead_auction.py` lines 95-164, advancing by `new_market.intervalDuration
= real_time_market_duration` each iteration.  The `0 < da.realTimeDuration`
conjunct mirrors the termination argument: the source loop does not terminate
for a non-positive real-time duration.  Since every iteration advances
`intervalStart` by at least one, `(intervalEnd - intervalStart).toNat` units of
fuel (supplied by `spawnRealTimeLoop`) always suffice, so the fuel guard is
never the reason the loop stops. -/
def spawnRealTimeLoopGo (da : DayAheadParams) (refinedId : Nat) (intervalEnd : Int) :
    Nat → Int → SpawnState → SpawnState
  | 0, _, st => st
  | fuel + 1, intervalStart, st =>
    if intervalStart < intervalEnd ∧ 0 < da.realTimeDuration then
      spawnRealTimeLoopGo da refinedId intervalEnd fuel (intervalStart + da.realTimeDuration)
        (spawnOneRealTime da refinedId intervalStart st)
    else st

/-- The `while interval_start < interval_end` loop of `day_ahead_auction.py`
lines 95-164. -/
def spawnRealTimeLoop (da : DayAheadParams) (refinedId : Nat)
    (intervalStart intervalEnd : Int) (st : SpawnState) : SpawnState :=
  spawnRealTimeLoopGo da refinedId intervalEnd ((intervalEnd - intervalStart).toNat)
    intervalStart st

/-- The real-time cascade of `DayAheadAuction.spawn_markets`
(`day_ahead_auction.py` lines 78-164): for each (sorted) start time of the new
day-ahead market's time intervals, spawn one real-time market per
`real_time_market_duration` sub-interval of `[start, start +
market.intervalDuration)`.  `startTimes` is the sorted list of interval start
times (line 80); the preceding `Auction.spawn_markets` base call (line 65,
defined outside src/) concerns the day-ahead series only. -/
def spawn_markets_rt (da : DayAheadParams) (refinedId : Nat) (daIntervalDuration : Int)
    (startTimes : List Int) (st : SpawnState) : SpawnState :=
  startTimes.foldl
    (fun s t => spawnRealTimeLoop da refinedId t (t + daIntervalDuration) s) st

/-- Specification helper naming the chain of real-time markets produced from a
prior newest market: `n` markets with consecutive fresh ids starting at
`nextId`, sub-interval starts `intervalStart + duration * j`, each chained to
its predecessor (the first to `priorId`), all inheriting `priceModel`,
`defaultPrice` and `futureHorizon` from the original prior market. -/
def rtChain (da : DayAheadParams) (refinedId : Nat) (priceModel : Nat)
    (defaultPrice futureHorizon : Int) (priorId : Nat) (nextId : Nat)
    (intervalStart : Int) : Nat → List SpawnMarket
  | 0 => []
  | n + 1 =>
    mkRealTimeMarket nextId refinedId da.realTimeDuration priceModel defaultPrice
      futureHorizon (some priorId) intervalStart ::
      rtChain da refinedId priceModel defaultPrice futureHorizon nextId (nextId + 1)
        (intervalStart + da.realTimeDuration) n

end DayAheadAuction

/-- One row of the parsed weather CSV (`temperature_forecast_model.py` lines
113-118): the `Timestamp` parsed at hour resolution (`minute=0, second=0`) and
the numeric `Value`.  Times are in hours. -/
structure WeatherRecord where
  timestamp : Int
  value : Int
deriving DecidableEq, Repr

/-- A market time interval as read by `get_forecast_file`: its name and
`ti.startTime.replace(minute=0)` at hour resolution. -/
structure ForecastInterval where
  name : String
  startHour : Int
deriving DecidableEq, Repr

/-- A `PredictedValue` IntervalValue produced by the forecast model. -/
structure PredictedValue where
  timeInterval : String
  value : Int
deriving DecidableEq, Repr

namespace TemperatureForecastModel

/-- `trial_deltas = [-1, 1, -2, 2, -24, 24]` (`temperature_forecast_model.py`
line 199); hour `start_time - timedelta(hours=delta)` is probed for each. -/
def trialDeltas : List Int := [-1, 1, -2, 2, -24, 24]

/-- `items = [x for x in self.weather_data if x['Timestamp'] == t]`. -/
def weatherAt (weatherData : List WeatherRecord) (t : Int) : List WeatherRecord :=
  weatherData.filter (fun r => r.timestamp == t)

/-- The per-interval body of `get_forecast_file` (`temperature_forecast_model.py`
lines 195-210): look up the interval's hour; on a miss, probe `start_time -
delta` hours for each trial delta in order, stopping at the first hour with
data; if none has data, raise (`Exception('No weather data for time: ...')`);
otherwise take `items[0]['Value']`. -/
def forecastLookup (weatherData : List WeatherRecord) (startTime : Int) :
    Except String Int :=
  match weatherAt weatherData startTime with
  | r :: _ => Except.ok r.value
  | [] =>
    match trialDeltas.findSome? (fun d => (weatherAt weatherData (startTime - d)).head?) with
    | some r => Except.ok r.value
    | none => Except.error "No weather data for time"

/-- Shallow embedding of `TemperatureForecastModel.get_forecast_file`
(`temperature_forecast_model.py` lines 189-212): reset `predictedValues`, then
for each market time interval append exactly one `PredictedValue` with the
looked-up temperature; a lookup failure propagates to the caller.  The
`init_weather_data` re-read of the CSV file is external I/O; `weatherData` is
its result. -/
def get_forecast_file (weatherData : List WeatherRecord)
    (timeIntervals : List ForecastInterval) : Except String (List PredictedValue) :=
  timeIntervals.mapM (fun ti =>
    (forecastLookup weatherData ti.startHour).map (fun v => PredictedValue.mk ti.name v))

end TemperatureForecastModel

/-- A `PointRecord` of `utils/time_series_buffer.py`: a value with its
timestamp `d_time` (times in abstract integer units). -/
structure PointRecord where
  value : Int
  dTime : Int
deriving DecidableEq, Repr

namespace TimeSeriesBuffer

/-- `TimeSeriesBuffer._expired` (`time_series_buffer.py` lines 104-107): with a
falsy expiry (`None` or zero, modeled as `0`) nothing expires; otherwise a
record is expired when `element[1] + self.expiry <= now`. -/
def expiredRec (expiry now : Int) (r : PointRecord) : Bool :=
  if expiry == 0 then false else decide (r.dTime + expiry ≤ now)

/-- One of the two `while` loops of `_prune_expired` (`time_series_buffer.py`
lines 113-116): pop records from the head while the head is expired.  The loop
condition indexes `self[0]` (respectively `self[-1]`), so when every record has
been popped the next condition evaluation raises IndexError. -/
def pruneLeftLoop (expiry now : Int) : List PointRecord → Except String (List PointRecord)
  | [] => Except.error "IndexError: deque index out of range"
  | r :: rs =>
    if r.dTime + expiry ≤ now then pruneLeftLoop expiry now rs
    else Except.ok (r :: rs)

/-- Shallow embedding of `TimeSeriesBuffer._prune_expired` (`time_series_buffer.py`
lines 109-116): do nothing on an empty buffer or falsy expiry; otherwise pop
expired records from the left end, then from the right end (modeled by pruning
the reversed list from the left). -/
def prune_expired (expiry now : Int) (buf : List PointRecord) :
    Except String (List PointRecord) :=
  if buf.length = 0 ∨ expiry = 0 then Except.ok buf
  else do
    let b1 ← pruneLeftLoop expiry now buf
    let b2 ← pruneLeftLoop expiry now b1.reverse
    return b2.reverse

/-- Shallow embedding of `TimeSeriesBuffer.append` (`time_series_buffer.py`
lines 35-42) for a record with an explicit timestamp: prune, then append the
record to the right end unless it is already expired. -/
def append (expiry now : Int) (buf : List PointRecord) (r : PointRecord) :
    Except String (List PointRecord) := do
  let b ← prune_expired expiry now buf
  if expiredRec expiry now r then return b else return b ++ [r]

/-- Shallow embedding of `TimeSeriesBuffer.appendleft` (`time_series_buffer.py`
lines 44-50). -/
def appendleft (expiry now : Int) (buf : List PointRecord) (r : PointRecord) :
    Except String (List PointRecord) := do
  let b ← prune_expired expiry now buf
  if expiredRec expiry now r then return b else return r :: b

/-- Shallow embedding of `TimeSeriesBuffer.extend` (`time_series_buffer.py`
lines 52-63): sort the incoming records by timestamp, keep only those with
`x[1] + expiry > now`, and when any remain, prune and extend on the right. -/
def extend (expiry now : Int) (buf : List PointRecord) (values : List PointRecord) :
    Except String (List PointRecord) :=
  let kept := (values.mergeSort (fun a b => decide (a.dTime ≤ b.dTime))).filter
    (fun x => decide (now < x.dTime + expiry))
  if 0 < kept.length then do
    let b ← prune_expired expiry now buf
    return b ++ kept
  else Except.ok buf

/-- Shallow embedding of `TimeSeriesBuffer.extendleft` (`time_series_buffer.py`
lines 65-74): sort the incoming records by descending timestamp, keep only
those with `x[1] + expiry > now`, and when any remain, extend on the left (a
deque `extendleft` prepends the reversed sequence); no pruning occurs. -/
def extendleft (expiry now : Int) (buf : List PointRecord) (values : List PointRecord) :
    List PointRecord :=
  let kept := (values.mergeSort (fun a b => decide (b.dTime ≤ a.dTime))).filter
    (fun x => decide (now < x.dTime + expiry))
  if 0 < kept.length then kept.reverse ++ buf else buf

/-- Shallow embedding of `TimeSeriesBuffer.get` (`time_series_buffer.py` lines
76-82): prune, then filter by the optional `since` (`d[1] >= since`) and
`until` (`d[1] <= until`) bounds. -/
def get (expiry now : Int) (buf : List PointRecord) (since untilT : Option Int) :
    Except String (List PointRecord) := do
  let b ← prune_expired expiry now buf
  let b := match since with | some s => b.filter (fun d => s ≤ d.dTime) | none => b
  let b := match untilT with | some u => b.filter (fun d => d.dTime ≤ u) | none => b
  return b

end TimeSeriesBuffer

/-- Number of entries of an `IntervalValue` list tagged to a given
time-interval name. -/
def countByInterval (l : List PIntervalValue) (ti : String) : Nat :=
  (l.filter (fun x => x.timeInterval == ti)).length

/-- Number of scheduled-power entries of a TCC asset keyed to a given
`(market, timeInterval)` pair. -/
def countSP (l : List SPEntry) (marketId : Nat) (ti : String) : Nat :=
  (l.filter (fun x => x.marketId == marketId && x.timeInterval == ti)).length

section Theorems

/-- Claim C2: `Auction.transition_from_active_to_negotiation` sets every local
asset's `scheduleCalculated` flag to `False` and calls each asset's `schedule`
exactly once (each call made on the asset with the flag just cleared), and sets
the market's `converged` flag to `False`; thereafter `Auction.while_in_negotiation`
sets `converged` and the state-completed flag to true on a tick if and only if
every local asset has `scheduleCalculated` true, and performs no further action
on ticks after `converged` is true. -/
theorem claim_C2 (sched : LocalAsset → LocalAsset) (st : NegotiationState) :
    (Auction.transition_from_active_to_negotiation sched st).1.converged = false ∧
    (Auction.transition_from_active_to_negotiation sched st).2 =
      st.localAssets.map (fun a => a.name) ∧
    (Auction.transition_from_active_to_negotiation sched st).1.localAssets =
      st.localAssets.map (fun a => sched { a with scheduleCalculated := false }) ∧
    (∀ s : NegotiationState, s.converged = false →
      (((Auction.while_in_negotiation s).converged = true ∧
          (Auction.while_in_negotiation s).stateIsCompleted = true) ↔
        ∀ a ∈ s.localAssets, a.scheduleCalculated = true) ∧
      ((¬ ∀ a ∈ s.localAssets, a.scheduleCalculated = true) →
        Auction.while_in_negotiation s = s)) ∧
    (∀ s : NegotiationState, s.converged = true → Auction.while_in_negotiation s = s) := by
  refine ⟨rfl, rfl, rfl, ?_, ?_⟩
  · intro s hs
    by_cases hall : ∀ a ∈ s.localAssets, a.scheduleCalculated = true
    · have hb : s.localAssets.all (fun a => a.scheduleCalculated) = true :=
        List.all_eq_true.mpr hall
      have hw : Auction.while_in_negotiation s =
          { s with converged := true, stateIsCompleted := true } := by
        simp [Auction.while_in_negotiation, hs, hb]
      constructor
      · rw [hw]
        exact ⟨fun _ => hall, fun _ => ⟨rfl, rfl⟩⟩
      · intro hno; exact absurd hall hno
    · have hb : s.localAssets.all (fun a => a.scheduleCalculated) = false := by
        have hex : ∃ a ∈ s.localAssets, ¬ a.scheduleCalculated = true := by
          push_neg at hall; exact hall
        rcases hex with ⟨a, hmem, hflag⟩
        exact List.all_eq_false.mpr ⟨a, hmem, by simpa using hflag⟩
      have heq : Auction.while_in_negotiation s = s := by
        simp [Auction.while_in_negotiation, hs, hb]
      refine ⟨?_, fun _ => heq⟩
      rw [heq]
      simp only [hs]
      constructor
      · rintro ⟨hc, -⟩; cases hc
      · intro hall2; exact absurd hall2 hall
  · intro s hs
    simp [Auction.while_in_negotiation, hs]

/-- Witness for claim C2: the Negotiation tick of a concrete state with one
still-unscheduled asset leaves the state unchanged. -/
theorem claim_C2_witness :
    ((NegotiationState.mk false false [LocalAsset.mk "a1" false]).converged = false) ∧
    ¬ (∀ a ∈ (NegotiationState.mk false false [LocalAsset.mk "a1" false]).localAssets,
        a.scheduleCalculated = true) ∧
    Auction.while_in_negotiation (NegotiationState.mk false false [LocalAsset.mk "a1" false]) =
      NegotiationState.mk false false [LocalAsset.mk "a1" false] :=
  ⟨rfl, by decide,
    ((claim_C2 id (NegotiationState.mk false false [LocalAsset.mk "a1" false])).2.2.2.1
      (NegotiationState.mk false false [LocalAsset.mk "a1" false]) rfl).2 (by decide)⟩

/-- Claim C5 (code bug): `TCCModel.set_scheduled_power` appends a fresh
`ScheduledPower` IntervalValue for every market time interval on every call and
prunes only entries of expired markets, so two consecutive calls for one
unexpired market leave two entries for the same `(market, timeInterval)` pair —
the  claimed at-most-one-per-pair invariant fails. -/
theorem claim_C5 :
    TCCModel.set_scheduled_power (fun p _ => p) 0 true (fun _ => false)
        (MarketRef.mk 0 ["t1"] [PIntervalValue.mk "t1" 3]) [] false =
      Except.ok ([SPEntry.mk 0 "t1" 3], true) ∧
    TCCModel.set_scheduled_power (fun p _ => p) 0 true (fun _ => false)
        (MarketRef.mk 0 ["t1"] [PIntervalValue.mk "t1" 3]) [SPEntry.mk 0 "t1" 3] true =
      Except.ok ([SPEntry.mk 0 "t1" 3, SPEntry.mk 0 "t1" 3], true) ∧
    countSP [SPEntry.mk 0 "t1" 3, SPEntry.mk 0 "t1" 3] 0 "t1" = 2 :=
  ⟨rfl, rfl, rfl⟩

/-- Claim C1: on a `while_in_market_lead` tick of a node with exactly one
upstream neighbor, for each downstream neighbor missing a received record for
some active interval name the tick invokes that neighbor's
`receive_transactive_signal` and does not complete the state; the state
completes exactly when every downstream neighbor has a received record for
every active interval name, in which case every downstream neighbor's
`schedule` is invoked, the upstream neighbor (if transactive) is sent the
aggregated bid via `prep_transactive_signal` and `send_transactive_signal`,
`_stateIsCompleted` becomes true, and no re-request is made. -/
theorem claim_C1 (timeIntervalNames : List String) (neighbors : List Neighbor)
    (hup : (upstreamAgents neighbors).length = 1) :
    ∃ r, Auction.while_in_market_lead timeIntervalNames neighbors false = Except.ok r ∧
      (r.stateIsCompleted = true ↔
        ∀ da ∈ downstreamAgents neighbors, missingIntervalNames timeIntervalNames da = []) ∧
      (∀ da ∈ downstreamAgents neighbors, missingIntervalNames timeIntervalNames da ≠ [] →
        Event.receiveSignal da.name ∈ r.events) ∧
      ((∀ da ∈ downstreamAgents neighbors, missingIntervalNames timeIntervalNames da = []) →
        (∀ da ∈ downstreamAgents neighbors, Event.scheduleNeighbor da.name ∈ r.events) ∧
        (∀ u ∈ upstreamAgents neighbors, u.transactive = true →
          Event.prepSignal u.name ∈ r.events ∧
          Event.sendSignal u.name u.publishTopic ∈ r.events) ∧
        (∀ nm, Event.receiveSignal nm ∉ r.events)) := by
  have hne : ¬ (upstreamAgents neighbors).length ≠ 1 := by rw [hup]; exact fun hc => hc rfl
  rcases List.length_eq_one.mp hup with ⟨u0, hu0⟩
  by_cases hall : ∀ da ∈ downstreamAgents neighbors,
      missingIntervalNames timeIntervalNames da = []
  · have hallb : (downstreamAgents neighbors).all
        (fun da => (missingIntervalNames timeIntervalNames da).isEmpty) = true :=
      List.all_eq_true.mpr (fun da h => List.isEmpty_iff.mpr (hall da h))
    have hpoll : (downstreamAgents neighbors).filterMap (fun da =>
        if (missingIntervalNames timeIntervalNames da).isEmpty then none
        else some (Event.receiveSignal da.name)) = [] :=
      List.filterMap_eq_nil_iff.mpr (fun da h => by
        rw [if_pos (List.isEmpty_iff.mpr (hall da h))])
    have heval : Auction.while_in_market_lead timeIntervalNames neighbors false =
        Except.ok ⟨coerceUnassigned neighbors,
          [] ++ (downstreamAgents neighbors).map (fun da => Event.scheduleNeighbor da.name) ++
            (if u0.transactive then
              [Event.prepSignal u0.name, Event.sendSignal u0.name u0.publishTopic] else []),
          true⟩ := by
      simp only [Auction.while_in_market_lead]
      rw [if_neg hne, if_pos hallb, hpoll, hu0]
    refine ⟨_, heval, ?_, ?_, ?_⟩
    · exact iff_of_true rfl hall
    · intro da hda hne2; exact absurd (hall da hda) hne2
    · intro _
      refine ⟨?_, ?_, ?_⟩
      · intro da hda
        simp only [List.nil_append, List.mem_append]
        exact Or.inl (List.mem_map_of_mem _ hda)
      · intro u hu htr
        have : u = u0 := by rw [hu0] at hu; exact List.mem_singleton.mp hu
        subst this
        simp only [List.nil_append, List.mem_append, if_pos htr]
        exact ⟨Or.inr (by simp), Or.inr (by simp)⟩
      · intro nm
        simp only [List.nil_append, List.mem_append, List.mem_map]
        rintro (⟨da, -, hda⟩ | hmem)
        · cases hda
        · by_cases htr : u0.transactive
          · rw [if_pos htr] at hmem
            simp at hmem
          · rw [if_neg htr] at hmem
            cases hmem
  · have hex : ∃ da ∈ downstreamAgents neighbors,
        ¬ missingIntervalNames timeIntervalNames da = [] := by
      push_neg at hall; exact hall
    have hallb : (downstreamAgents neighbors).all
        (fun da => (missingIntervalNames timeIntervalNames da).isEmpty) = false := by
      rcases hex with ⟨da, hda, hne2⟩
      exact List.all_eq_false.mpr ⟨da, hda, fun hc => hne2 (List.isEmpty_iff.mp hc)⟩
    have heval : Auction.while_in_market_lead timeIntervalNames neighbors false =
        Except.ok ⟨coerceUnassigned neighbors,
          (downstreamAgents neighbors).filterMap (fun da =>
            if (missingIntervalNames timeIntervalNames da).isEmpty then none
            else some (Event.receiveSignal da.name)),
          false⟩ := by
      simp only [Auction.while_in_market_lead]
      rw [if_neg hne, if_neg (by rw [hallb]; exact Bool.false_ne_true)]
    refine ⟨_, heval, ?_, ?_, ?_⟩
    · exact iff_of_false Bool.false_ne_true hall
    · intro da hda hne2
      exact List.mem_filterMap.mpr ⟨da, hda,
        by rw [if_neg (fun hc => hne2 (List.isEmpty_iff.mp hc))]⟩
    · intro hall2; exact absurd hall2 hall

/-- Witness for claim C1: a node with one transactive upstream neighbor and one
downstream neighbor that has supplied its record for the single active
interval. -/
theorem claim_C1_witness :
    (upstreamAgents [Neighbor.mk "up" Direction.upstream true ["t1"] "topicU",
        Neighbor.mk "d1" Direction.downstream true ["t1"] "topicD"]).length = 1 ∧
    (∃ r, Auction.while_in_market_lead ["t1"]
        [Neighbor.mk "up" Direction.upstream true ["t1"] "topicU",
         Neighbor.mk "d1" Direction.downstream true ["t1"] "topicD"] false = Except.ok r ∧
      (r.stateIsCompleted = true ↔
        ∀ da ∈ downstreamAgents [Neighbor.mk "up" Direction.upstream true ["t1"] "topicU",
            Neighbor.mk "d1" Direction.downstream true ["t1"] "topicD"],
          missingIntervalNames ["t1"] da = []) ∧
      (∀ da ∈ downstreamAgents [Neighbor.mk "up" Direction.upstream true ["t1"] "topicU",
          Neighbor.mk "d1" Direction.downstream true ["t1"] "topicD"],
        missingIntervalNames ["t1"] da ≠ [] → Event.receiveSignal da.name ∈ r.events) ∧
      ((∀ da ∈ downstreamAgents [Neighbor.mk "up" Direction.upstream true ["t1"] "topicU",
          Neighbor.mk "d1" Direction.downstream true ["t1"] "topicD"],
          missingIntervalNames ["t1"] da = []) →
        (∀ da ∈ downstreamAgents [Neighbor.mk "up" Direction.upstream true ["t1"] "topicU",
            Neighbor.mk "d1" Direction.downstream true ["t1"] "topicD"],
          Event.scheduleNeighbor da.name ∈ r.events) ∧
        (∀ u ∈ upstreamAgents [Neighbor.mk "up" Direction.upstream true ["t1"] "topicU",
            Neighbor.mk "d1" Direction.downstream true ["t1"] "topicD"],
          u.transactive = true → Event.prepSignal u.name ∈ r.events ∧
            Event.sendSignal u.name u.publishTopic ∈ r.events) ∧
        (∀ nm, Event.receiveSignal nm ∉ r.events))) :=
  ⟨by decide, claim_C1 ["t1"]
    [Neighbor.mk "up" Direction.upstream true ["t1"] "topicU",
     Neighbor.mk "d1" Direction.downstream true ["t1"] "topicD"] (by decide)⟩

/-- Claim C4 (amended): in both `while_in_market_lead` and
`while_in_delivery_lead`, a neighbor whose direction is neither upstream nor
downstream is assigned the downstream direction with a warning, not an
exception; but when the number of upstream-direction neighbors differs from
one, `while_in_market_lead` raises a `RuntimeWarning` after the coercion,
halting the tick, while `while_in_delivery_lead` only logs the warning — it
halts with an `IndexError` when there is no upstream neighbor at all
(`upstream_agents[0]`), and otherwise proceeds using the first upstream
neighbor with the warning recorded. -/
theorem claim_C4 :
    (∀ n : Neighbor, n.upOrDown ≠ Direction.upstream → n.upOrDown ≠ Direction.downstream →
      ∀ ns : List Neighbor, n ∈ ns →
        { n with upOrDown := Direction.downstream } ∈ coerceUnassigned ns) ∧
    (∀ (tis : List String) (ns : List Neighbor) (b : Bool),
      (upstreamAgents ns).length ≠ 1 →
      Auction.while_in_market_lead tis ns b =
        Except.error ("There should be precisely one upstream neighbor for an auction market",
          coerceUnassigned ns)) ∧
    (∀ (prod : String → Int → String → Int)
        (balanceFn : List PIntervalValue → List String → List PIntervalValue)
        (st : DeliveryState), upstreamAgents st.neighbors = [] →
      Auction.while_in_delivery_lead prod balanceFn st =
        Except.error ("IndexError: list index out of range", coerceUnassigned st.neighbors)) ∧
    (∀ (prod : String → Int → String → Int)
        (balanceFn : List PIntervalValue → List String → List PIntervalValue)
        (st : DeliveryState) (r : DeliveryResult),
      (upstreamAgents st.neighbors).length ≠ 1 →
      Auction.while_in_delivery_lead prod balanceFn st = Except.ok r →
      Event.warnUpstreamCount ∈ r.events) := by
  refine ⟨?_, ?_, ?_, ?_⟩
  · intro n h1 h2 ns hmem
    have hf : (if n.upOrDown == Direction.upstream || n.upOrDown == Direction.downstream then n
        else { n with upOrDown := Direction.downstream }) =
        { n with upOrDown := Direction.downstream } := by
      rw [if_neg]
      simp only [Bool.or_eq_true, beq_iff_eq]
      rintro (hc | hc)
      · exact h1 hc
      · exact h2 hc
    exact hf ▸ List.mem_map_of_mem _ hmem
  · intro tis ns b h
    simp only [Auction.while_in_market_lead]
    rw [if_pos h]
  · intro prod balanceFn st h
    simp only [Auction.while_in_delivery_lead]
    rw [h]
  · intro prod balanceFn st r h hok
    simp only [Auction.while_in_delivery_lead] at hok
    rcases hups : upstreamAgents st.neighbors with _ | ⟨u, rest⟩
    · rw [hups] at hok
      exact absurd hok (by simp)
    · rw [hups, if_pos (hups ▸ h)] at hok
      dsimp only at hok
      by_cases hrecv : (if u.transactive = true then
          if (missingIntervalNames st.timeIntervalNames u).isEmpty = true then
            (true, ([] : List Event))
          else (false, [Event.receiveSignal u.name])
        else (true, ([] : List Event))).1 = true
      · rw [if_pos hrecv] at hok
        rcases hmap : st.localAssets.mapM
            (Auction.rescheduleAsset prod
              (balanceFn st.marginalPrices st.timeIntervalNames) st.timeIntervalNames) with e | outs
        · rw [hmap] at hok
          exact absurd hok (by simp)
        · rw [hmap] at hok
          have hr := (Except.ok.injEq _ _).mp hok
          rw [← hr]
          simp [List.mem_append]
      · rw [if_neg hrecv] at hok
        have hr := (Except.ok.injEq _ _).mp hok
        rw [← hr]
        simp [List.mem_append]

/-- Counterexample to claim C4 as stated: with a single neighbor of
unrecognized direction (zero upstream neighbors), `while_in_market_lead`
raises a `RuntimeWarning` and `while_in_delivery_lead` raises an `IndexError`;
neither tick runs to completion. -/
theorem claim_C4_counterexample :
    (upstreamAgents [Neighbor.mk "x" Direction.unknown true [] "tx"]).length = 0 ∧
    Auction.while_in_market_lead ["t1"] [Neighbor.mk "x" Direction.unknown true [] "tx"] false =
      Except.error ("There should be precisely one upstream neighbor for an auction market",
        [Neighbor.mk "x" Direction.downstream true [] "tx"]) ∧
    Auction.while_in_delivery_lead (fun _ p _ => p) (fun mp _ => mp)
        (DeliveryState.mk ["t1"] [] [Neighbor.mk "x" Direction.unknown true [] "tx"] [] false) =
      Except.error ("IndexError: list index out of range",
        [Neighbor.mk "x" Direction.downstream true [] "tx"]) :=
  ⟨rfl, rfl, rfl⟩

/-- Witness for claim C4: a concrete node with one downstream neighbor and no
upstream neighbor makes `while_in_market_lead` raise. -/
theorem claim_C4_witness :
    Auction.while_in_market_lead ["t1"] [Neighbor.mk "y" Direction.downstream true [] "ty"] false =
      Except.error ("There should be precisely one upstream neighbor for an auction market",
        coerceUnassigned [Neighbor.mk "y" Direction.downstream true [] "ty"]) :=
  claim_C4.2.1 ["t1"] [Neighbor.mk "y" Direction.downstream true [] "ty"] false (by decide)

/-- Claim C7 (amended): when `DayAheadAuction.spawn_markets` finds no newest
"Real-Time Auction" market (the startup case), it does not fail: the new
real-time market is created with `priceModel` and `defaultPrice` taken from the
spawning day-ahead market itself, `futureHorizon` set to the real-time market
duration (`real_time_market_duration`, not the day-ahead market's own
`futureHorizon`), and `priorMarketInSeries` set to none. -/
theorem claim_C7 (da : DayAheadParams) (refinedId : Nat) (intervalStart : Int)
    (st : SpawnState) (hnone : findPriorRealTime st.markets = none) :
    ∃ nm : SpawnMarket,
      DayAheadAuction.spawnOneRealTime da refinedId intervalStart st =
        SpawnState.mk (st.markets ++ [nm]) (st.nextId + 1) (st.spawned ++ [nm]) ∧
      nm.priceModel = da.priceModel ∧
      nm.defaultPrice = da.defaultPrice ∧
      nm.futureHorizon = da.realTimeDuration ∧
      nm.priorMarketInSeries = none ∧
      nm.marketClearingTime = intervalStart - 5 ∧
      nm.checkedIntervals = true ∧ nm.checkedMarginalPrices = true := by
  refine ⟨mkRealTimeMarket st.nextId refinedId da.realTimeDuration da.priceModel
    da.defaultPrice da.realTimeDuration none intervalStart, ?_, rfl, rfl, rfl, rfl, rfl, rfl, rfl⟩
  unfold DayAheadAuction.spawnOneRealTime
  rw [hnone]

/-- Counterexample to claim C7 as stated: at startup (no prior real-time
market) the spawned market's `futureHorizon` is the real-time market duration
(here 5), not the day-ahead market's own `futureHorizon` (here 1440). -/
theorem claim_C7_counterexample :
    ((DayAheadAuction.spawn_markets_rt (DayAheadParams.mk 5 77 9 1440) 100 60 [1000]
        (SpawnState.mk [] 0 [])).spawned.map (fun m => m.futureHorizon)).head? = some 5 ∧
    (DayAheadParams.mk 5 77 9 1440).futureHorizon = 1440 ∧
    ¬ ((DayAheadAuction.spawn_markets_rt (DayAheadParams.mk 5 77 9 1440) 100 60 [1000]
        (SpawnState.mk [] 0 [])).spawned.map (fun m => m.futureHorizon)).head? =
      some (DayAheadParams.mk 5 77 9 1440).futureHorizon :=
  ⟨rfl, rfl, by decide⟩

/-- Witness for claim C7: the startup spawn applied to an empty market list. -/
theorem claim_C7_witness :
    ∃ nm : SpawnMarket,
      DayAheadAuction.spawnOneRealTime (DayAheadParams.mk 5 77 9 1440) 100 1000
          (SpawnState.mk [] 0 []) =
        SpawnState.mk ((SpawnState.mk [] 0 []).markets ++ [nm])
          ((SpawnState.mk [] 0 []).nextId + 1) ((SpawnState.mk [] 0 []).spawned ++ [nm]) ∧
      nm.priceModel = (DayAheadParams.mk 5 77 9 1440).priceModel ∧
      nm.defaultPrice = (DayAheadParams.mk 5 77 9 1440).defaultPrice ∧
      nm.futureHorizon = (DayAheadParams.mk 5 77 9 1440).realTimeDuration ∧
      nm.priorMarketInSeries = none ∧
      nm.marketClearingTime = 1000 - 5 ∧
      nm.checkedIntervals = true ∧ nm.checkedMarginalPrices = true :=
  claim_C7 (DayAheadParams.mk 5 77 9 1440) 100 1000 (SpawnState.mk [] 0 []) rfl

/-- Helper: a successful `mapM` over `Except` succeeds pointwise, preserving
length and positions. -/
theorem mapM_ok_get {α β : Type} (f : α → Except String β) :
    ∀ (l : List α) (out : List β), l.mapM f = Except.ok out →
      out.length = l.length ∧ ∀ i (hi : i < l.length) (hp : i < out.length),
        f (l.get ⟨i, hi⟩) = Except.ok (out.get ⟨i, hp⟩) := by
  intro l
  induction l with
  | nil =>
    intro out h
    rw [List.mapM_nil] at h
    have : out = [] := ((Except.ok.injEq _ _).mp h).symm
    subst this
    exact ⟨rfl, fun i hi => absurd hi (Nat.not_lt_zero i)⟩
  | cons a l ih =>
    intro out h
    rw [List.mapM_cons] at h
    rcases hfa : f a with e | b <;> rw [hfa] at h
    · simp [Except.bind, bind] at h
    · rcases hml : l.mapM f with e | bs <;> rw [hml] at h
      · simp [Except.bind, bind] at h
      · simp only [bind, Except.bind, pure, Except.pure, Except.ok.injEq] at h
        subst h
        rcases ih bs hml with ⟨hlen, hget⟩
        refine ⟨by simp [hlen], ?_⟩
        intro i hi hp
        cases i with
        | zero => simpa using hfa
        | succ j =>
          have hj : j < l.length := Nat.lt_of_succ_lt_succ hi
          have hjp : j < bs.length := Nat.lt_of_succ_lt_succ hp
          simpa using hget j hj hjp

/-- Helper: every element of the input of a successful `mapM` over `Except`
maps successfully. -/
theorem mapM_ok_forall {α β : Type} (f : α → Except String β) :
    ∀ (l : List α) (out : List β), l.mapM f = Except.ok out →
      ∀ a ∈ l, ∃ b, f a = Except.ok b := by
  intro l
  induction l with
  | nil => intro out _ a ha; cases ha
  | cons x l ih =>
    intro out h a ha
    rw [List.mapM_cons] at h
    rcases hfa : f x with e | b <;> rw [hfa] at h
    · simp [Except.bind, bind] at h
    · rcases hml : l.mapM f with e | bs <;> rw [hml] at h
      · simp [Except.bind, bind] at h
      · rcases List.mem_cons.mp ha with rfl | hmem
        · exact ⟨b, hfa⟩
        · exact ih bs hml a hmem

/-- Helper: a successful `findSome?` originates at some list element. -/
theorem findSome?_ok_mem {α β : Type} (f : α → Option β) :
    ∀ (l : List α) (b : β), l.findSome? f = some b → ∃ a ∈ l, f a = some b := by
  intro l
  induction l with
  | nil => intro b h; cases h
  | cons x l ih =>
    intro b h
    rw [List.findSome?_cons] at h
    rcases hfx : f x with _ | y <;> rw [hfx] at h
    · rcases ih b h with ⟨a, ha, hfa⟩
      exact ⟨a, List.mem_cons_of_mem _ ha, hfa⟩
    · exact ⟨x, List.mem_cons_self _ _, by rw [hfx]; exact h⟩

/-- Claim C9: `TemperatureForecastModel.get_forecast_file` looks up each market
time interval's hour and falls back only through the documented chain of nearby
cached hours (trial deltas -1, +1, -2, +2, -24, +24, probed as `start_time -
delta`); if no probed hour yields data it raises an exception for that lookup
to the caller rather than silently substituting a value, and on success it
appends exactly one `PredictedValue` IntervalValue per market time interval. -/
theorem claim_C9 (weatherData : List WeatherRecord) (timeIntervals : List ForecastInterval) :
    (∀ pvs, TemperatureForecastModel.get_forecast_file weatherData timeIntervals =
        Except.ok pvs →
      pvs.length = timeIntervals.length ∧
      ∀ i (hi : i < timeIntervals.length) (hp : i < pvs.length),
        (pvs.get ⟨i, hp⟩).timeInterval = (timeIntervals.get ⟨i, hi⟩).name) ∧
    (∀ t, TemperatureForecastModel.forecastLookup weatherData t =
        Except.error "No weather data for time" ↔
      ∀ d ∈ (0 :: TemperatureForecastModel.trialDeltas),
        TemperatureForecastModel.weatherAt weatherData (t - d) = []) ∧
    (∀ t v, TemperatureForecastModel.forecastLookup weatherData t = Except.ok v →
      ∃ d ∈ (0 :: TemperatureForecastModel.trialDeltas), ∃ r rs,
        TemperatureForecastModel.weatherAt weatherData (t - d) = r :: rs ∧ v = r.value) ∧
    ((∃ ti ∈ timeIntervals, TemperatureForecastModel.forecastLookup weatherData ti.startHour =
        Except.error "No weather data for time") →
      ∀ pvs, TemperatureForecastModel.get_forecast_file weatherData timeIntervals ≠
        Except.ok pvs) := by
  refine ⟨?_, ?_, ?_, ?_⟩
  · intro pvs h
    rcases mapM_ok_get _ _ _ h with ⟨hlen, hget⟩
    refine ⟨hlen, ?_⟩
    intro i hi hp
    have := hget i hi hp
    rcases hlk : TemperatureForecastModel.forecastLookup weatherData
        ((timeIntervals.get ⟨i, hi⟩).startHour) with e | v <;>
      rw [hlk] at this
    · simp [Except.map] at this
    · simp only [Except.map, Except.ok.injEq] at this
      rw [← this]
  · intro t
    unfold TemperatureForecastModel.forecastLookup
    rcases hx : TemperatureForecastModel.weatherAt weatherData t with _ | ⟨r, rs⟩
    · rcases hf : TemperatureForecastModel.trialDeltas.findSome?
          (fun d => (TemperatureForecastModel.weatherAt weatherData (t - d)).head?)
          with _ | r2
      · constructor
        · intro _ d hd
          rcases List.mem_cons.mp hd with h0 | hdel
          · subst h0; simpa [sub_zero] using hx
          · exact List.head?_eq_none_iff.mp ((List.findSome?_eq_none_iff.mp hf) d hdel)
        · intro _; rfl
      · constructor
        · intro hc; cases hc
        · intro hall
          rcases findSome?_ok_mem _ _ _ hf with ⟨d, hd, hsome⟩
          rw [hall d (List.mem_cons_of_mem _ hd)] at hsome
          cases hsome
    · constructor
      · intro hc; cases hc
      · intro hall
        have h0 := hall 0 (List.mem_cons_self _ _)
        rw [sub_zero, hx] at h0
        cases h0
  · intro t v h
    unfold TemperatureForecastModel.forecastLookup at h
    rcases hx : TemperatureForecastModel.weatherAt weatherData t with _ | ⟨r, rs⟩ <;>
      rw [hx] at h
    · rcases hf : TemperatureForecastModel.trialDeltas.findSome?
          (fun d => (TemperatureForecastModel.weatherAt weatherData (t - d)).head?)
          with _ | r2 <;> rw [hf] at h
      · cases h
      · rcases findSome?_ok_mem _ _ _ hf with ⟨d, hd, hsome⟩
        rcases List.head?_eq_some_iff.mp hsome with ⟨ys, hys⟩
        refine ⟨d, List.mem_cons_of_mem _ hd, r2, ys, hys, ?_⟩
        cases h; rfl
    · refine ⟨0, List.mem_cons_self _ _, r, rs, by rw [sub_zero]; exact hx, ?_⟩
      cases h; rfl
  · rintro ⟨ti, hti, herr⟩ pvs hok
    rcases mapM_ok_forall _ _ _ hok ti hti with ⟨b, hb⟩
    rw [herr] at hb
    simp [Except.map] at hb

/-- Witness for claim C9: concrete weather data with an exact hit, fallback
hits at +1 and -2 hours, and a miss that raises. -/
theorem claim_C9_witness :
    TemperatureForecastModel.get_forecast_file [WeatherRecord.mk 10 70]
        [ForecastInterval.mk "i1" 10, ForecastInterval.mk "i2" 9] =
      Except.ok [PredictedValue.mk "i1" 70, PredictedValue.mk "i2" 70] ∧
    ([PredictedValue.mk "i1" 70, PredictedValue.mk "i2" 70].length =
      [ForecastInterval.mk "i1" 10, ForecastInterval.mk "i2" 9].length ∧
     ∀ i (hi : i < [ForecastInterval.mk "i1" 10, ForecastInterval.mk "i2" 9].length)
        (hp : i < [PredictedValue.mk "i1" 70, PredictedValue.mk "i2" 70].length),
        (([PredictedValue.mk "i1" 70, PredictedValue.mk "i2" 70].get ⟨i, hp⟩)).timeInterval =
          (([ForecastInterval.mk "i1" 10, ForecastInterval.mk "i2" 9].get ⟨i, hi⟩)).name) ∧
    TemperatureForecastModel.forecastLookup [WeatherRecord.mk 10 70] 40 =
      Except.error "No weather data for time" :=
  ⟨rfl,
    (claim_C9 [WeatherRecord.mk 10 70]
      [ForecastInterval.mk "i1" 10, ForecastInterval.mk "i2" 9]).1
      [PredictedValue.mk "i1" 70, PredictedValue.mk "i2" 70] rfl,
    ((claim_C9 [WeatherRecord.mk 10 70]
      [ForecastInterval.mk "i1" 10, ForecastInterval.mk "i2" 9]).2.1 40).mpr (by decide)⟩

/-- Helper: a successful left-prune returns a suffix of its input whose head is
unexpired. -/
theorem pruneLeftLoop_ok (expiry now : Int) :
    ∀ (l b : List PointRecord), TimeSeriesBuffer.pruneLeftLoop expiry now l = Except.ok b →
      (∃ t, l = t ++ b) ∧ ∃ x xs, b = x :: xs ∧ now < x.dTime + expiry := by
  intro l
  induction l with
  | nil => intro b h; cases h
  | cons r rs ih =>
    intro b h
    simp only [TimeSeriesBuffer.pruneLeftLoop] at h
    by_cases hr : r.dTime + expiry ≤ now
    · rw [if_pos hr] at h
      rcases ih b h with ⟨⟨t, ht⟩, hx⟩
      exact ⟨⟨r :: t, by rw [ht]; rfl⟩, hx⟩
    · rw [if_neg hr] at h
      have hb : b = r :: rs := ((Except.ok.injEq _ _).mp h).symm
      subst hb
      exact ⟨⟨[], rfl⟩, r, rs, rfl, lt_of_not_le hr⟩

/-- Helper: left-pruning a list whose records are all expired raises the
IndexError of `_prune_expired`. -/
theorem pruneLeftLoop_error (expiry now : Int) :
    ∀ l : List PointRecord, (∀ r ∈ l, r.dTime + expiry ≤ now) →
      TimeSeriesBuffer.pruneLeftLoop expiry now l =
        Except.error "IndexError: deque index out of range" := by
  intro l
  induction l with
  | nil => intro _; rfl
  | cons r rs ih =>
    intro h
    simp only [TimeSeriesBuffer.pruneLeftLoop]
    rw [if_pos (h r (List.mem_cons_self _ _))]
    exact ih (fun x hx => h x (List.mem_cons_of_mem _ hx))

/-- Helper: left-pruning succeeds whenever some record is unexpired. -/
theorem pruneLeftLoop_some_ok (expiry now : Int) :
    ∀ l : List PointRecord, (∃ r ∈ l, now < r.dTime + expiry) →
      ∃ b, TimeSeriesBuffer.pruneLeftLoop expiry now l = Except.ok b := by
  intro l
  induction l with
  | nil => rintro ⟨r, hr, -⟩; cases hr
  | cons x xs ih =>
    rintro ⟨r, hr, hfresh⟩
    simp only [TimeSeriesBuffer.pruneLeftLoop]
    by_cases hx : x.dTime + expiry ≤ now
    · rw [if_pos hx]
      apply ih
      rcases List.mem_cons.mp hr with rfl | hmem
      · exact absurd hx (not_le_of_lt hfresh)
      · exact ⟨r, hmem, hfresh⟩
    · rw [if_neg hx]; exact ⟨x :: xs, rfl⟩

/-- Helper: a successful `_prune_expired` returns a sublist of the buffer. -/
theorem prune_expired_sublist (expiry now : Int) (buf b : List PointRecord)
    (h : TimeSeriesBuffer.prune_expired expiry now buf = Except.ok b) : b.Sublist buf := by
  unfold TimeSeriesBuffer.prune_expired at h
  by_cases hg : buf.length = 0 ∨ expiry = 0
  · rw [if_pos hg] at h
    have hb : b = buf := ((Except.ok.injEq _ _).mp h).symm
    subst hb; exact List.Sublist.refl _
  · rw [if_neg hg] at h
    rcases h1 : TimeSeriesBuffer.pruneLeftLoop expiry now buf with e | b1 <;> rw [h1] at h
    · simp [Except.bind, bind] at h
    · simp only [bind, Except.bind] at h
      rcases h2 : TimeSeriesBuffer.pruneLeftLoop expiry now b1.reverse with e | b2 <;>
        rw [h2] at h
      · simp at h
      · dsimp only at h
        simp only [pure, Except.pure, Except.ok.injEq] at h
        subst h
        rcases pruneLeftLoop_ok expiry now buf b1 h1 with ⟨⟨t0, ht0⟩, -⟩
        rcases pruneLeftLoop_ok expiry now b1.reverse b2 h2 with ⟨⟨t1, ht1⟩, -⟩
        have hb1 : b2.reverse ++ t1.reverse = b1 := by
          rw [← List.reverse_append, ← ht1, List.reverse_reverse]
        have hsub1 : b2.reverse.Sublist b1 := by
          rw [← hb1]; exact List.sublist_append_left _ _
        have hsub2 : b1.Sublist buf := by
          rw [ht0]; exact List.sublist_append_right _ _
        exact hsub1.trans hsub2

/-- Helper: when some record of the buffer is unexpired, `_prune_expired`
succeeds and both end records of the (nonempty) result are unexpired. -/
theorem prune_expired_ok (expiry now : Int) (buf : List PointRecord)
    (hpos : 0 < expiry) (hwit : ∃ r ∈ buf, now < r.dTime + expiry) :
    ∃ b, TimeSeriesBuffer.prune_expired expiry now buf = Except.ok b ∧
      b.Sublist buf ∧
      (∃ x xs, b = x :: xs ∧ now < x.dTime + expiry) ∧
      (∃ ys y, b = ys ++ [y] ∧ now < y.dTime + expiry) := by
  have hg : ¬ (buf.length = 0 ∨ expiry = 0) := by
    rcases hwit with ⟨r, hr, -⟩
    rintro (hlen | hexp)
    · rw [List.length_eq_zero] at hlen; subst hlen; cases hr
    · omega
  rcases pruneLeftLoop_some_ok expiry now buf hwit with ⟨b1, h1⟩
  rcases pruneLeftLoop_ok expiry now buf b1 h1 with ⟨⟨t0, ht0⟩, x1, xs1, hb1, hx1⟩
  have hwit2 : ∃ r ∈ b1.reverse, now < r.dTime + expiry :=
    ⟨x1, by rw [List.mem_reverse, hb1]; exact List.mem_cons_self _ _, hx1⟩
  rcases pruneLeftLoop_some_ok expiry now b1.reverse hwit2 with ⟨b2, h2⟩
  rcases pruneLeftLoop_ok expiry now b1.reverse b2 h2 with ⟨⟨t1, ht1⟩, x2, xs2, hb2, hx2⟩
  have heval : TimeSeriesBuffer.prune_expired expiry now buf = Except.ok b2.reverse := by
    unfold TimeSeriesBuffer.prune_expired
    rw [if_neg hg, h1]
    show TimeSeriesBuffer.pruneLeftLoop expiry now b1.reverse >>= _ = _
    rw [h2]
    rfl
  have hrev : b2.reverse ++ t1.reverse = b1 := by
    rw [← List.reverse_append, ← ht1, List.reverse_reverse]
  refine ⟨b2.reverse, heval, prune_expired_sublist expiry now buf _ heval, ?_, ?_⟩
  · rcases hb2r : b2.reverse with _ | ⟨c, cs⟩
    · rw [List.reverse_eq_nil_iff] at hb2r
      rw [hb2r] at hb2; cases hb2
    · rw [hb2r] at hrev
      rw [hb1] at hrev
      have hc : c = x1 := (List.cons.injEq _ _ _ _).mp ((List.cons_append c cs _) ▸ hrev) |>.1
      exact ⟨c, cs, rfl, hc ▸ hx1⟩
  · refine ⟨xs2.reverse, x2, ?_, hx2⟩
    rw [hb2, List.reverse_cons]

/-- Helper: `_prune_expired` on a nonempty buffer whose records are all
expired raises an IndexError instead of emptying the buffer. -/
theorem prune_expired_all_expired (expiry now : Int) (buf : List PointRecord)
    (hpos : 0 < expiry) (hne : buf ≠ []) (hall : ∀ r ∈ buf, r.dTime + expiry ≤ now) :
    TimeSeriesBuffer.prune_expired expiry now buf =
      Except.error "IndexError: deque index out of range" := by
  have hg : ¬ (buf.length = 0 ∨ expiry = 0) := by
    rintro (hlen | hexp)
    · rw [List.length_eq_zero] at hlen; exact hne hlen
    · omega
  unfold TimeSeriesBuffer.prune_expired
  rw [if_neg hg, pruneLeftLoop_error expiry now buf hall]
  rfl

/-- Helper: overwriting the first entry of a time interval leaves the entries
of every other time interval untouched. -/
theorem overwriteFirst_filter_ne (ti ti2 : String) (p : Int) (hne : ti2 ≠ ti) :
    ∀ l : List PIntervalValue,
      (overwriteFirstByInterval l ti p).filter (fun x => x.timeInterval == ti2) =
        l.filter (fun x => x.timeInterval == ti2) := by
  intro l
  induction l with
  | nil => rfl
  | cons x xs ih =>
    rcases hx : x.timeInterval == ti with _ | _
    · simp only [overwriteFirstByInterval, hx, Bool.false_eq_true, ite_false,
        List.filter_cons]
      rw [ih]
    · have hxt : x.timeInterval = ti := by simpa using hx
      have hcond : (x.timeInterval == ti2) = false := by
        rw [hxt]; exact beq_eq_false_iff_ne.mpr (fun hc => hne hc.symm)
      simp only [overwriteFirstByInterval, hx, ite_true]
      simp [List.filter_cons, hcond]

/-- Helper: overwriting the first entry of a time interval replaces the head of
that time interval's filtered view with the new value and keeps the rest. -/
theorem overwriteFirst_filter_self (ti : String) (p : Int) :
    ∀ l : List PIntervalValue,
      (overwriteFirstByInterval l ti p).filter (fun x => x.timeInterval == ti) =
        match l.filter (fun x => x.timeInterval == ti) with
        | [] => []
        | _ :: xs => PIntervalValue.mk ti p :: xs := by
  intro l
  induction l with
  | nil => rfl
  | cons x xs ih =>
    rcases hx : x.timeInterval == ti with _ | _
    · simp only [overwriteFirstByInterval, hx, Bool.false_eq_true, ite_false,
        List.filter_cons, hx]
      exact ih
    · have hxt : x.timeInterval = ti := by simpa using hx
      simp only [overwriteFirstByInterval, hx, ite_true]
      simp [List.filter_cons, hx, hxt]

/-- Helper: characterization of one interval iteration of the delivery-lead
asset-rescheduling loop when the interval has a cleared marginal price. -/
theorem rescheduleAssetInterval_ok (prod : String → Int → String → Int)
    (marginalPrices : List PIntervalValue) (assetName : String)
    (sps : List PIntervalValue) (events : List Event) (ti : String) (mp : PIntervalValue)
    (mps : List PIntervalValue)
    (hmp : marginalPrices.filter (fun x => x.timeInterval == ti) = mp :: mps) :
    ∃ sps2 ev2, Auction.rescheduleAssetInterval prod marginalPrices assetName
        (sps, events) ti = Except.ok (sps2, ev2) ∧
      (∀ ti2, ti2 ≠ ti → sps2.filter (fun x => x.timeInterval == ti2) =
        sps.filter (fun x => x.timeInterval == ti2)) ∧
      countByInterval sps2 ti = max (countByInterval sps ti) 1 ∧
      find_obj_by_ti sps2 ti = some (PIntervalValue.mk ti (prod assetName mp.value ti)) ∧
      ev2 = events ++ (if 2 ≤ countByInterval sps ti then
        [Event.warnDuplicatePower assetName ti] else []) := by
  unfold Auction.rescheduleAssetInterval
  rw [hmp]
  dsimp only
  by_cases h0 : (sps.filter (fun x => x.timeInterval == ti)).length = 0
  · rw [if_pos h0]
    have hnil : sps.filter (fun x => x.timeInterval == ti) = [] :=
      List.length_eq_zero.mp h0
    have hself : (sps ++ [PIntervalValue.mk ti (prod assetName mp.value ti)]).filter
        (fun x => x.timeInterval == ti) = [PIntervalValue.mk ti (prod assetName mp.value ti)] := by
      rw [List.filter_append, hnil]
      simp
    refine ⟨_, _, rfl, ?_, ?_, ?_, ?_⟩
    · intro ti2 hne
      rw [List.filter_append]
      have hsing : ([PIntervalValue.mk ti (prod assetName mp.value ti)].filter
          (fun x => x.timeInterval == ti2)) = [] := by
        simp [beq_eq_false_iff_ne.mpr (fun hc : ti = ti2 => hne hc.symm)]
      rw [hsing, List.append_nil]
    · unfold countByInterval
      rw [hself, h0]
      simp
    · unfold find_obj_by_ti
      rw [hself]
      rfl
    · rw [if_neg (by unfold countByInterval; omega)]
      simp
  · rw [if_neg h0]
    rcases hflt : sps.filter (fun x => x.timeInterval == ti) with _ | ⟨y, ys⟩
    · exact absurd (by rw [hflt]; rfl) h0
    have hself := overwriteFirst_filter_self ti (prod assetName mp.value ti) sps
    rw [hflt] at hself
    by_cases h1 : (sps.filter (fun x => x.timeInterval == ti)).length = 1
    · rw [if_pos h1]
      refine ⟨_, _, rfl, ?_, ?_, ?_, ?_⟩
      · intro ti2 hne
        exact overwriteFirst_filter_ne ti ti2 _ hne sps
      · unfold countByInterval
        rw [hself, hflt]
        have : ys.length = 0 := by
          have := h1; rw [hflt] at this; simpa using this
        simp [this]
      · unfold find_obj_by_ti
        rw [hself]
        rfl
      · rw [if_neg (by unfold countByInterval; omega)]
        simp
    · rw [if_neg h1]
      refine ⟨_, _, rfl, ?_, ?_, ?_, ?_⟩
      · intro ti2 hne
        exact overwriteFirst_filter_ne ti ti2 _ hne sps
      · unfold countByInterval
        rw [hself, hflt]
        simp
      · unfold find_obj_by_ti
        rw [hself]
        rfl
      · rw [if_pos (by
          unfold countByInterval
          rw [hflt] at h1 ⊢
          simp only [List.length_cons] at h1 ⊢
          omega)]

/-- Helper: the full per-asset interval loop of `while_in_delivery_lead`:
assuming distinct interval names and a cleared price for each, it succeeds; per
interval, the scheduled-power entry count becomes `max count 1`, intervals not
in the list are untouched, the first entry holds the interpolated power, a
duplicate warning is emitted when the pair held two or more entries, and every
emitted event is such a warning. -/
theorem rescheduleAsset_fold (prod : String → Int → String → Int)
    (marginalPrices : List PIntervalValue) (assetName : String) :
    ∀ tis : List String, tis.Nodup →
      (∀ ti ∈ tis, marginalPrices.filter (fun x => x.timeInterval == ti) ≠ []) →
      ∀ (sps : List PIntervalValue) (events : List Event),
      ∃ out, List.foldlM (Auction.rescheduleAssetInterval prod marginalPrices assetName)
          (sps, events) tis = Except.ok out ∧
        (∃ extra, out.2 = events ++ extra ∧
          ∀ e ∈ extra, ∃ ti ∈ tis, e = Event.warnDuplicatePower assetName ti) ∧
        (∀ ti, ti ∉ tis → out.1.filter (fun x => x.timeInterval == ti) =
          sps.filter (fun x => x.timeInterval == ti)) ∧
        (∀ ti ∈ tis,
          countByInterval out.1 ti = max (countByInterval sps ti) 1 ∧
          (2 ≤ countByInterval sps ti →
            Event.warnDuplicatePower assetName ti ∈ out.2) ∧
          (∀ mp mps, marginalPrices.filter (fun x => x.timeInterval == ti) = mp :: mps →
            find_obj_by_ti out.1 ti =
              some (PIntervalValue.mk ti (prod assetName mp.value ti)))) := by
  intro tis
  induction tis with
  | nil =>
    intro _ _ sps events
    refine ⟨(sps, events), by rw [List.foldlM_nil]; rfl, ⟨[], by simp, by simp⟩, ?_, by simp⟩
    intro ti _; rfl
  | cons ti tis ih =>
    intro hnd hpr sps events
    have hti : ti ∉ tis := (List.nodup_cons.mp hnd).1
    rcases hflt : marginalPrices.filter (fun x => x.timeInterval == ti) with _ | ⟨mp, mps⟩
    · exact absurd hflt (hpr ti (List.mem_cons_self _ _))
    rcases rescheduleAssetInterval_ok prod marginalPrices assetName sps events ti mp mps hflt
      with ⟨sps1, ev1, hstep, hne1, hcnt1, hfind1, hev1⟩
    rcases ih (List.nodup_cons.mp hnd).2
        (fun t ht => hpr t (List.mem_cons_of_mem _ ht)) sps1 ev1
      with ⟨out, hfold, ⟨extra1, hext1, hext1w⟩, huntouched, hall⟩
    refine ⟨out, ?_, ?_, ?_, ?_⟩
    · rw [List.foldlM_cons, hstep]
      show List.foldlM _ (sps1, ev1) tis = Except.ok out
      exact hfold
    · refine ⟨(if 2 ≤ countByInterval sps ti then
        [Event.warnDuplicatePower assetName ti] else []) ++ extra1, ?_, ?_⟩
      · rw [hext1, hev1, List.append_assoc]
      · intro e he
        rcases List.mem_append.mp he with hw | hx
        · by_cases h2 : 2 ≤ countByInterval sps ti
          · rw [if_pos h2] at hw
            exact ⟨ti, List.mem_cons_self _ _, List.mem_singleton.mp hw⟩
          · rw [if_neg h2] at hw; cases hw
        · rcases hext1w e hx with ⟨t, ht, he2⟩
          exact ⟨t, List.mem_cons_of_mem _ ht, he2⟩
    · intro t hmem
      have htne : t ≠ ti := fun hc => hmem (hc ▸ List.mem_cons_self _ _)
      have htnot : t ∉ tis := fun hc => hmem (List.mem_cons_of_mem _ hc)
      rw [huntouched t htnot, hne1 t htne]
    · intro t htmem
      rcases List.mem_cons.mp htmem with rfl | htm
      · have hfe : out.1.filter (fun x => x.timeInterval == t) =
            sps1.filter (fun x => x.timeInterval == t) := huntouched t hti
        refine ⟨?_, ?_, ?_⟩
        · unfold countByInterval at hcnt1 ⊢
          rw [hfe]; exact hcnt1
        · intro h2
          have : Event.warnDuplicatePower assetName t ∈ ev1 := by
            rw [hev1, if_pos h2]
            simp
          rw [hext1]
          exact List.mem_append_left _ this
        · intro mp2 mps2 hmp2
          rw [hflt] at hmp2
          have : mp2 = mp := ((List.cons.injEq _ _ _ _).mp hmp2).1.symm
          subst this
          unfold find_obj_by_ti at hfind1 ⊢
          rw [hfe]; exact hfind1
      · have htne : t ≠ ti := fun hc => hti (hc ▸ htm)
        rcases hall t htm with ⟨hcnt, hwarn, hfind⟩
        refine ⟨?_, ?_, hfind⟩
        · rw [hcnt]
          unfold countByInterval
          rw [hne1 t htne]
        · intro h2
          apply hwarn
          unfold countByInterval at h2 ⊢
          rw [hne1 t htne]
          exact h2

/-- Helper: a pointwise-successful map over `Except` succeeds globally,
preserving length and the pointwise property. -/
theorem mapM_ok_of_forall {α β : Type} (f : α → Except String β) (P : α → β → Prop) :
    ∀ l : List α, (∀ a ∈ l, ∃ b, f a = Except.ok b ∧ P a b) →
      ∃ out, l.mapM f = Except.ok out ∧ out.length = l.length ∧
        ∀ i (hi : i < l.length) (hp : i < out.length), P (l.get ⟨i, hi⟩) (out.get ⟨i, hp⟩) := by
  intro l
  induction l with
  | nil =>
    intro _
    exact ⟨[], by rw [List.mapM_nil]; rfl, rfl, fun i hi => absurd hi (Nat.not_lt_zero i)⟩
  | cons a l ih =>
    intro h
    rcases h a (List.mem_cons_self _ _) with ⟨b, hb, hPb⟩
    rcases ih (fun x hx => h x (List.mem_cons_of_mem _ hx)) with ⟨out, hout, hlen, hget⟩
    refine ⟨b :: out, ?_, by simp [hlen], ?_⟩
    · rw [List.mapM_cons, hb]
      show l.mapM f >>= _ = _
      rw [hout]
      rfl
    · intro i hi hp
      cases i with
      | zero => exact hPb
      | succ j => exact hget j (Nat.lt_of_succ_lt_succ hi) (Nat.lt_of_succ_lt_succ hp)

/-- Claim C3: in `Auction.while_in_delivery_lead`, once the clearing price is
computed (an upstream neighbor exists, its signals are all received, every
active interval has a cleared marginal price, and the active interval names are
distinct), for every local asset and every active time interval: if no
scheduled-power IntervalValue exists for the (asset, interval) pair, a new one
is appended (count becomes 1); if at least one exists, the first one's value is
overwritten in place with the interpolated power and the entry count does not
change (no append); and if more than one exists, a duplicate-detection warning
for that asset and interval is emitted — the number of scheduled-power entries
for the pair never increases when one already exists. -/
theorem claim_C3 (prod : String → Int → String → Int)
    (balanceFn : List PIntervalValue → List String → List PIntervalValue)
    (st : DeliveryState) (u : Neighbor) (urest : List Neighbor)
    (h1 : upstreamAgents st.neighbors = u :: urest)
    (h2 : u.transactive = true → missingIntervalNames st.timeIntervalNames u = [])
    (h3 : ∀ ti ∈ st.timeIntervalNames,
      (balanceFn st.marginalPrices st.timeIntervalNames).filter
        (fun x => x.timeInterval == ti) ≠ [])
    (h4 : st.timeIntervalNames.Nodup) :
    ∃ res, Auction.while_in_delivery_lead prod balanceFn st = Except.ok res ∧
      res.stateIsCompleted = true ∧
      res.localAssets.length = st.localAssets.length ∧
      ∀ i (hi : i < st.localAssets.length) (hp : i < res.localAssets.length),
        (res.localAssets.get ⟨i, hp⟩).name = (st.localAssets.get ⟨i, hi⟩).name ∧
        ∀ ti ∈ st.timeIntervalNames,
          countByInterval ((res.localAssets.get ⟨i, hp⟩).scheduledPowers) ti =
            max (countByInterval ((st.localAssets.get ⟨i, hi⟩).scheduledPowers) ti) 1 ∧
          (1 ≤ countByInterval ((st.localAssets.get ⟨i, hi⟩).scheduledPowers) ti →
            countByInterval ((res.localAssets.get ⟨i, hp⟩).scheduledPowers) ti =
              countByInterval ((st.localAssets.get ⟨i, hi⟩).scheduledPowers) ti) ∧
          (countByInterval ((st.localAssets.get ⟨i, hi⟩).scheduledPowers) ti = 0 →
            countByInterval ((res.localAssets.get ⟨i, hp⟩).scheduledPowers) ti = 1) ∧
          (2 ≤ countByInterval ((st.localAssets.get ⟨i, hi⟩).scheduledPowers) ti →
            Event.warnDuplicatePower (st.localAssets.get ⟨i, hi⟩).name ti ∈ res.events) ∧
          (∀ mp mps, (balanceFn st.marginalPrices st.timeIntervalNames).filter
              (fun x => x.timeInterval == ti) = mp :: mps →
            find_obj_by_ti ((res.localAssets.get ⟨i, hp⟩).scheduledPowers) ti =
              some (PIntervalValue.mk ti
                (prod (st.localAssets.get ⟨i, hi⟩).name mp.value ti))) := by
  have hrecv : (if u.transactive = true then
      if (missingIntervalNames st.timeIntervalNames u).isEmpty = true then
        (true, ([] : List Event))
      else (false, [Event.receiveSignal u.name])
    else (true, ([] : List Event))).1 = true := by
    by_cases ht : u.transactive = true
    · rw [if_pos ht, if_pos (List.isEmpty_iff.mpr (h2 ht))]
    · rw [if_neg ht]
  have hpoint : ∀ a ∈ st.localAssets, ∃ pr,
      Auction.rescheduleAsset prod (balanceFn st.marginalPrices st.timeIntervalNames)
        st.timeIntervalNames a = Except.ok pr ∧
      (pr.1.name = a.name ∧
       ∀ ti ∈ st.timeIntervalNames,
         countByInterval pr.1.scheduledPowers ti =
           max (countByInterval a.scheduledPowers ti) 1 ∧
         (2 ≤ countByInterval a.scheduledPowers ti →
           Event.warnDuplicatePower a.name ti ∈ pr.2) ∧
         (∀ mp mps, (balanceFn st.marginalPrices st.timeIntervalNames).filter
             (fun x => x.timeInterval == ti) = mp :: mps →
           find_obj_by_ti pr.1.scheduledPowers ti =
             some (PIntervalValue.mk ti (prod a.name mp.value ti)))) := by
    intro a _
    rcases rescheduleAsset_fold prod (balanceFn st.marginalPrices st.timeIntervalNames)
        a.name st.timeIntervalNames h4 h3 a.scheduledPowers []
      with ⟨out, hfold, -, -, hall⟩
    refine ⟨({ a with scheduledPowers := out.1 }, out.2), ?_, rfl, ?_⟩
    · unfold Auction.rescheduleAsset
      rw [hfold]
      rfl
    · intro ti hti
      rcases hall ti hti with ⟨hcnt, hwarn, hfind⟩
      exact ⟨hcnt, hwarn, hfind⟩
  rcases mapM_ok_of_forall _ _ st.localAssets hpoint with ⟨outs, hmap, hlen, hget⟩
  simp only [Auction.while_in_delivery_lead]
  rw [h1]
  dsimp only
  rw [if_pos hrecv, hmap]
  dsimp only
  refine ⟨_, rfl, rfl, by simp [hlen], ?_⟩
  intro i hi hp
  dsimp only at hp ⊢
  have hp2 : i < outs.length := by simpa using hp
  have hgeti : (List.map (fun p : DeliveryAsset × List Event => p.1) outs).get ⟨i, hp⟩ =
      (outs.get ⟨i, hp2⟩).1 := by
    simp
  rw [hgeti]
  rcases hget i hi hp2 with ⟨hname, hprops⟩
  refine ⟨hname, ?_⟩
  intro ti hti
  rcases hprops ti hti with ⟨hcnt, hwarn, hfind⟩
  refine ⟨hcnt, ?_, ?_, ?_, hfind⟩
  · intro hle; rw [hcnt]; omega
  · intro h0; rw [hcnt, h0]; omega
  · intro h2c
    have hw := hwarn h2c
    simp only [List.mem_append]
    refine Or.inl (Or.inr ?_)
    exact List.mem_flatMap.mpr ⟨outs.get ⟨i, hp2⟩, List.get_mem _ _ _, hw⟩

/-- Witness for claim C3: a concrete tick with an upstream neighbor whose
signals are complete, one interval with a cleared price, and two assets — one
without a scheduled-power entry (appended) and one with two duplicate entries
(first overwritten with the cleared-price power, warning emitted, count
preserved). -/
theorem claim_C3_witness :
    ∃ res, Auction.while_in_delivery_lead (fun _ p _ => p) (fun mp _ => mp)
        (DeliveryState.mk ["t1"] [PIntervalValue.mk "t1" 7]
          [Neighbor.mk "up" Direction.upstream true ["t1"] "tu"]
          [DeliveryAsset.mk "a1" [],
           DeliveryAsset.mk "a2" [PIntervalValue.mk "t1" 0, PIntervalValue.mk "t1" 1]]
          false) = Except.ok res ∧
      res.stateIsCompleted = true ∧
      res.localAssets.map (fun a => countByInterval a.scheduledPowers "t1") = [1, 2] ∧
      res.localAssets.map (fun a => find_obj_by_ti a.scheduledPowers "t1") =
        [some (PIntervalValue.mk "t1" 7), some (PIntervalValue.mk "t1" 7)] ∧
      Event.warnDuplicatePower "a2" "t1" ∈ res.events := by
  rcases claim_C3 (fun _ p _ => p) (fun mp _ => mp)
      (DeliveryState.mk ["t1"] [PIntervalValue.mk "t1" 7]
        [Neighbor.mk "up" Direction.upstream true ["t1"] "tu"]
        [DeliveryAsset.mk "a1" [],
         DeliveryAsset.mk "a2" [PIntervalValue.mk "t1" 0, PIntervalValue.mk "t1" 1]] false)
      (Neighbor.mk "up" Direction.upstream true ["t1"] "tu") []
      (by decide) (fun _ => by decide) (by decide) (by decide)
    with ⟨res, hres, hcompleted, -, -⟩
  have hres2 : res = DeliveryResult.mk
      [Neighbor.mk "up" Direction.upstream true ["t1"] "tu"]
      [PIntervalValue.mk "t1" 7]
      [DeliveryAsset.mk "a1" [PIntervalValue.mk "t1" 7],
       DeliveryAsset.mk "a2" [PIntervalValue.mk "t1" 7, PIntervalValue.mk "t1" 1]]
      [Event.updateVerticesCall "up", Event.balanceCall, Event.schedulePowerCall "up",
       Event.warnDuplicatePower "a2" "t1"] true := by
    have heval : Auction.while_in_delivery_lead (fun _ p _ => p)
        (fun (mp : List PIntervalValue) (_ : List String) => mp)
        (DeliveryState.mk ["t1"] [PIntervalValue.mk "t1" 7]
          [Neighbor.mk "up" Direction.upstream true ["t1"] "tu"]
          [DeliveryAsset.mk "a1" [],
           DeliveryAsset.mk "a2" [PIntervalValue.mk "t1" 0, PIntervalValue.mk "t1" 1]]
          false) = Except.ok (DeliveryResult.mk
        [Neighbor.mk "up" Direction.upstream true ["t1"] "tu"]
        [PIntervalValue.mk "t1" 7]
        [DeliveryAsset.mk "a1" [PIntervalValue.mk "t1" 7],
         DeliveryAsset.mk "a2" [PIntervalValue.mk "t1" 7, PIntervalValue.mk "t1" 1]]
        [Event.updateVerticesCall "up", Event.balanceCall, Event.schedulePowerCall "up",
         Event.warnDuplicatePower "a2" "t1"] true) := by rfl
    rw [heval] at hres
    exact ((Except.ok.injEq _ _).mp hres).symm
  subst hres2
  exact ⟨_, hres, hcompleted, by decide, by decide, by decide⟩

/-- Claim C10 (amended): for a `TimeSeriesBuffer` with a non-null (positive)
expiry, records older than the expiry are dropped on insertion (`append`,
`appendleft`, `extend`, `extendleft` insert only records with timestamp plus
expiry strictly later than the current time, and insert no record that was not
already stored or passed in); on access, expired records are pruned from the
two ends of the deque only, so that when at least one record is unexpired
pruning succeeds and the first and last remaining records are strictly fresh,
while an expired record in the interior may be retained and returned by `get`;
and when every record of a nonempty buffer has expired, pruning raises an
IndexError instead of silently emptying the buffer. -/
theorem claim_C10 :
    (∀ (expiry now : Int) (buf : List PointRecord), 0 < expiry →
      (∃ r ∈ buf, now < r.dTime + expiry) →
      ∃ b, TimeSeriesBuffer.prune_expired expiry now buf = Except.ok b ∧
        b.Sublist buf ∧
        (∃ x xs, b = x :: xs ∧ now < x.dTime + expiry) ∧
        (∃ ys y, b = ys ++ [y] ∧ now < y.dTime + expiry)) ∧
    (∀ (expiry now : Int) (buf : List PointRecord), 0 < expiry → buf ≠ [] →
      (∀ r ∈ buf, r.dTime + expiry ≤ now) →
      TimeSeriesBuffer.prune_expired expiry now buf =
        Except.error "IndexError: deque index out of range") ∧
    (∀ (expiry now : Int) (buf : List PointRecord) (rec : PointRecord) (b : List PointRecord),
      0 < expiry →
      TimeSeriesBuffer.append expiry now buf rec = Except.ok b →
      ∀ x ∈ b, x ∈ buf ∨ (x = rec ∧ now < rec.dTime + expiry)) ∧
    (∀ (expiry now : Int) (buf : List PointRecord) (rec : PointRecord) (b : List PointRecord),
      0 < expiry →
      TimeSeriesBuffer.appendleft expiry now buf rec = Except.ok b →
      ∀ x ∈ b, x ∈ buf ∨ (x = rec ∧ now < rec.dTime + expiry)) ∧
    (∀ (expiry now : Int) (buf values b : List PointRecord),
      TimeSeriesBuffer.extend expiry now buf values = Except.ok b →
      ∀ x ∈ b, x ∈ buf ∨ (x ∈ values ∧ now < x.dTime + expiry)) ∧
    (∀ (expiry now : Int) (buf values : List PointRecord),
      ∀ x ∈ TimeSeriesBuffer.extendleft expiry now buf values,
        x ∈ buf ∨ (x ∈ values ∧ now < x.dTime + expiry)) ∧
    (∀ (expiry now : Int) (buf : List PointRecord) (since untilT : Option Int)
        (b : List PointRecord),
      TimeSeriesBuffer.get expiry now buf since untilT = Except.ok b →
      ∀ x ∈ b, x ∈ buf) := by
  have hmem_prune : ∀ (expiry now : Int) (buf b : List PointRecord),
      TimeSeriesBuffer.prune_expired expiry now buf = Except.ok b → ∀ x ∈ b, x ∈ buf :=
    fun expiry now buf b h x hx => (prune_expired_sublist expiry now buf b h).subset hx
  refine ⟨prune_expired_ok, prune_expired_all_expired, ?_, ?_, ?_, ?_, ?_⟩
  · intro expiry now buf rec b hpos h x hx
    unfold TimeSeriesBuffer.append at h
    rcases hp : TimeSeriesBuffer.prune_expired expiry now buf with e | b0 <;> rw [hp] at h
    · simp [Except.bind, bind] at h
    · rcases hexp : TimeSeriesBuffer.expiredRec expiry now rec with _ | _ <;>
        simp only [bind, Except.bind, hexp, Bool.false_eq_true, if_neg, if_pos,
          pure, Except.pure, Except.ok.injEq, ite_true, ite_false] at h
      · subst h
        rcases List.mem_append.mp hx with hx0 | hxr
        · exact Or.inl (hmem_prune expiry now buf b0 hp x hx0)
        · refine Or.inr ⟨List.mem_singleton.mp hxr, ?_⟩
          unfold TimeSeriesBuffer.expiredRec at hexp
          rw [if_neg (by simp [beq_iff_eq]; omega)] at hexp
          simpa using lt_of_not_le (by simpa using hexp)
      · subst h
        exact Or.inl (hmem_prune expiry now buf b0 hp x hx)
  · intro expiry now buf rec b hpos h x hx
    unfold TimeSeriesBuffer.appendleft at h
    rcases hp : TimeSeriesBuffer.prune_expired expiry now buf with e | b0 <;> rw [hp] at h
    · simp [Except.bind, bind] at h
    · rcases hexp : TimeSeriesBuffer.expiredRec expiry now rec with _ | _ <;>
        simp only [bind, Except.bind, hexp, Bool.false_eq_true, if_neg, if_pos,
          pure, Except.pure, Except.ok.injEq, ite_true, ite_false] at h
      · subst h
        rcases List.mem_cons.mp hx with hxr | hx0
        · refine Or.inr ⟨hxr, ?_⟩
          unfold TimeSeriesBuffer.expiredRec at hexp
          rw [if_neg (by simp [beq_iff_eq]; omega)] at hexp
          simpa using lt_of_not_le (by simpa using hexp)
        · exact Or.inl (hmem_prune expiry now buf b0 hp x hx0)
      · subst h
        exact Or.inl (hmem_prune expiry now buf b0 hp x hx)
  · intro expiry now buf values b h x hx
    unfold TimeSeriesBuffer.extend at h
    by_cases hk : 0 < ((values.mergeSort (fun a b => decide (a.dTime ≤ b.dTime))).filter
        (fun x => decide (now < x.dTime + expiry))).length
    · rw [if_pos hk] at h
      rcases hp : TimeSeriesBuffer.prune_expired expiry now buf with e | b0 <;> rw [hp] at h
      · simp [Except.bind, bind] at h
      · simp only [bind, Except.bind, pure, Except.pure, Except.ok.injEq] at h
        subst h
        rcases List.mem_append.mp hx with hx0 | hxk
        · exact Or.inl (hmem_prune expiry now buf b0 hp x hx0)
        · rcases List.mem_filter.mp hxk with ⟨hsort, hfresh⟩
          refine Or.inr ⟨(List.mergeSort_perm values _).mem_iff.mp hsort, by simpa using hfresh⟩
    · rw [if_neg hk] at h
      have hb : b = buf := ((Except.ok.injEq _ _).mp h).symm
      subst hb
      exact Or.inl hx
  · intro expiry now buf values x hx
    unfold TimeSeriesBuffer.extendleft at hx
    by_cases hk : 0 < ((values.mergeSort (fun a b => decide (b.dTime ≤ a.dTime))).filter
        (fun x => decide (now < x.dTime + expiry))).length
    · rw [if_pos hk] at hx
      rcases List.mem_append.mp hx with hxk | hx0
      · rw [List.mem_reverse] at hxk
        rcases List.mem_filter.mp hxk with ⟨hsort, hfresh⟩
        exact Or.inr ⟨(List.mergeSort_perm values _).mem_iff.mp hsort, by simpa using hfresh⟩
      · exact Or.inl hx0
    · rw [if_neg hk] at hx
      exact Or.inl hx
  · intro expiry now buf since untilT b h x hx
    unfold TimeSeriesBuffer.get at h
    rcases hp : TimeSeriesBuffer.prune_expired expiry now buf with e | b0 <;> rw [hp] at h
    · simp [Except.bind, bind] at h
    · simp only [bind, Except.bind, pure, Except.pure, Except.ok.injEq] at h
      subst h
      have hx0 : x ∈ b0 := by
        rcases since with - | s <;> rcases untilT with - | u <;>
          simp only at hx <;>
          first
            | exact hx
            | exact List.mem_filter.mp hx |>.1
            | exact List.mem_filter.mp (List.mem_filter.mp hx).1 |>.1
      exact hmem_prune expiry now buf b0 hp x hx0

/-- Counterexample to claim C10 as stated: appending a fresh record to a buffer
whose single record has expired raises an IndexError (never silently dropped),
and `get` returns an interior expired record (timestamp 0, expiry 50, now 60:
0 + 50 is not strictly later than 60). -/
theorem claim_C10_counterexample :
    TimeSeriesBuffer.append 5 10 [PointRecord.mk 0 0] (PointRecord.mk 1 10) =
      Except.error "IndexError: deque index out of range" ∧
    TimeSeriesBuffer.get 50 60
        [PointRecord.mk 1 100, PointRecord.mk 2 0, PointRecord.mk 3 100] none none =
      Except.ok [PointRecord.mk 1 100, PointRecord.mk 2 0, PointRecord.mk 3 100] ∧
    (PointRecord.mk 2 0).dTime + 50 ≤ 60 :=
  ⟨rfl, rfl, by decide⟩

/-- Witness for claim C10: pruning a buffer with a fresh head and expired tail,
an all-expired raise, and an append that keeps the old record and the fresh new
one. -/
theorem claim_C10_witness :
    (∃ b, TimeSeriesBuffer.prune_expired 5 10 [PointRecord.mk 7 8, PointRecord.mk 9 2] =
        Except.ok b ∧
      b.Sublist [PointRecord.mk 7 8, PointRecord.mk 9 2] ∧
      (∃ x xs, b = x :: xs ∧ (10 : Int) < x.dTime + 5) ∧
      (∃ ys y, b = ys ++ [y] ∧ (10 : Int) < y.dTime + 5)) ∧
    TimeSeriesBuffer.prune_expired 5 10 [PointRecord.mk 9 2] =
      Except.error "IndexError: deque index out of range" :=
  ⟨claim_C10.1 5 10 [PointRecord.mk 7 8, PointRecord.mk 9 2] (by decide)
      ⟨PointRecord.mk 7 8, by decide, by decide⟩,
    claim_C10.2.1 5 10 [PointRecord.mk 9 2] (by decide) (by decide) (by decide)⟩

/-- Helper: clearing the first newest "Real-Time Auction" market removes the
head of the newest-markets view and keeps the rest. -/
theorem clearFirst_of_head :
    ∀ (l : List SpawnMarket) (pm : SpawnMarket) (rest : List SpawnMarket),
      l.filter isNewestRealTime = pm :: rest →
      (clearFirstNewestRealTime l).filter isNewestRealTime = rest := by
  intro l
  induction l with
  | nil => intro pm rest h; cases h
  | cons m ms ih =>
    intro pm rest h
    rcases hm : isNewestRealTime m with _ | _
    · simp only [clearFirstNewestRealTime, hm, Bool.false_eq_true, ite_false,
        List.filter_cons, hm]
      simp only [List.filter_cons, hm, Bool.false_eq_true, ite_false] at h
      exact ih pm rest h
    · simp only [clearFirstNewestRealTime, hm, ite_true, List.filter_cons]
      have hcleared : isNewestRealTime { m with isNewestMarket := false } = false := by
        simp [isNewestRealTime]
      rw [hcleared]
      simp only [List.filter_cons, hm, ite_true] at h
      exact ((List.cons.injEq _ _ _ _).mp h).2

/-- Helper: clearing a newest flag does not change market identities. -/
theorem clearFirst_map_id :
    ∀ l : List SpawnMarket, (clearFirstNewestRealTime l).map (fun m => m.id) =
      l.map (fun m => m.id) := by
  intro l
  induction l with
  | nil => rfl
  | cons m ms ih =>
    rcases hm : isNewestRealTime m with _ | _
    · simp only [clearFirstNewestRealTime, hm, Bool.false_eq_true, ite_false, List.map_cons]
      rw [ih]
    · simp only [clearFirstNewestRealTime, hm, ite_true, List.map_cons]

/-- Helper: every market built by the real-time constructor call carries the
newest flag of the "Real-Time Auction" series. -/
theorem isNewestRealTime_mk (id refinedId : Nat) (duration : Int) (priceModel : Nat)
    (defaultPrice futureHorizon : Int) (priorId : Option Nat) (intervalStart : Int) :
    isNewestRealTime (mkRealTimeMarket id refinedId duration priceModel defaultPrice
      futureHorizon priorId intervalStart) = true := by
  simp [isNewestRealTime, mkRealTimeMarket]

/-- Helper: one spawn step leaves exactly one newest "Real-Time Auction"
market — the newly created one — whenever at most one existed before. -/
theorem spawnOne_newest (da : DayAheadParams) (refinedId : Nat) (t : Int) (st : SpawnState)
    (h : (st.markets.filter isNewestRealTime).length ≤ 1) :
    ∃ priceModel defaultPrice futureHorizon priorId,
      ((DayAheadAuction.spawnOneRealTime da refinedId t st).markets.filter isNewestRealTime) =
        [mkRealTimeMarket st.nextId refinedId da.realTimeDuration priceModel defaultPrice
          futureHorizon priorId t] := by
  unfold DayAheadAuction.spawnOneRealTime
  rcases hf : findPriorRealTime st.markets with _ | pm
  · have hnil : st.markets.filter isNewestRealTime = [] := by
      unfold findPriorRealTime at hf
      exact List.head?_eq_none_iff.mp hf
    refine ⟨da.priceModel, da.defaultPrice, da.realTimeDuration, none, ?_⟩
    rw [List.filter_append, hnil]
    simp [isNewestRealTime_mk]
  · unfold findPriorRealTime at hf
    rcases List.head?_eq_some_iff.mp hf with ⟨ys, hys⟩
    have hys0 : ys = [] := by
      have := h
      rw [hys] at this
      simpa using this
    subst hys0
    refine ⟨pm.priceModel, pm.defaultPrice, pm.futureHorizon, some pm.id, ?_⟩
    rw [List.filter_append, clearFirst_of_head st.markets pm [] hys]
    simp [isNewestRealTime_mk]

/-- Helper: the fuel-driven spawn loop preserves at-most-one newest
"Real-Time Auction" market. -/
theorem spawnGo_newest_le_one (da : DayAheadParams) (refinedId : Nat) (intervalEnd : Int) :
    ∀ (fuel : Nat) (start : Int) (st : SpawnState),
      (st.markets.filter isNewestRealTime).length ≤ 1 →
      (((DayAheadAuction.spawnRealTimeLoopGo da refinedId intervalEnd fuel start
        st).markets.filter isNewestRealTime)).length ≤ 1 := by
  intro fuel
  induction fuel with
  | zero => intro start st h; exact h
  | succ f ih =>
    intro start st h
    simp only [DayAheadAuction.spawnRealTimeLoopGo]
    by_cases hc : start < intervalEnd ∧ 0 < da.realTimeDuration
    · rw [if_pos hc]
      apply ih
      rcases spawnOne_newest da refinedId start st h with ⟨p, dp, fh, pr, hone⟩
      rw [hone]
      exact le_refl 1
    · rw [if_neg hc]
      exact h

/-- Claim C8: `DayAheadAuction.spawn_markets` preserves the uniqueness of the
`(marketSeriesName, isNewestMarket)` lookup key: each real-time spawn first
clears the flag of the previously newest "Real-Time Auction" market (when one
exists), so after each creation exactly one newest market of the series
remains — the newly created one — and the whole cascade keeps at most one
newest market of the series. -/
theorem claim_C8 (da : DayAheadParams) (refinedId : Nat) (daIntervalDuration : Int)
    (startTimes : List Int) (st : SpawnState) :
    (∀ (t : Int) (st2 : SpawnState), (st2.markets.filter isNewestRealTime).length ≤ 1 →
      ∃ priceModel defaultPrice futureHorizon priorId,
        ((DayAheadAuction.spawnOneRealTime da refinedId t st2).markets.filter
          isNewestRealTime) =
          [mkRealTimeMarket st2.nextId refinedId da.realTimeDuration priceModel defaultPrice
            futureHorizon priorId t]) ∧
    ((st.markets.filter isNewestRealTime).length ≤ 1 →
      (((DayAheadAuction.spawn_markets_rt da refinedId daIntervalDuration startTimes
        st).markets.filter isNewestRealTime)).length ≤ 1) := by
  refine ⟨fun t st2 h => spawnOne_newest da refinedId t st2 h, ?_⟩
  unfold DayAheadAuction.spawn_markets_rt
  induction startTimes generalizing st with
  | nil => intro h; exact h
  | cons t ts ih =>
    intro h
    rw [List.foldl_cons]
    exact ih _ (spawnGo_newest_le_one da refinedId _ _ _ _ h)

/-- Helper: length of a spawned real-time chain. -/
theorem rtChain_length (da : DayAheadParams) (refinedId priceModel : Nat)
    (defaultPrice futureHorizon : Int) :
    ∀ (n : Nat) (priorId nextId : Nat) (s : Int),
      (DayAheadAuction.rtChain da refinedId priceModel defaultPrice futureHorizon priorId
        nextId s n).length = n := by
  intro n
  induction n with
  | zero => intro priorId nextId s; rfl
  | succ m ih =>
    intro priorId nextId s
    simp only [DayAheadAuction.rtChain, List.length_cons, ih]

/-- Helper: the j-th market of a spawned real-time chain has id `nextId + j`,
sub-interval start `s + duration * j`, and is chained to its predecessor (the
first to `priorId`). -/
theorem rtChain_get (da : DayAheadParams) (refinedId priceModel : Nat)
    (defaultPrice futureHorizon : Int) :
    ∀ (n : Nat) (priorId nextId : Nat) (s : Int) (j : Nat)
      (hj : j < (DayAheadAuction.rtChain da refinedId priceModel defaultPrice futureHorizon
        priorId nextId s n).length),
      (DayAheadAuction.rtChain da refinedId priceModel defaultPrice futureHorizon priorId
        nextId s n).get ⟨j, hj⟩ =
        mkRealTimeMarket (nextId + j) refinedId da.realTimeDuration priceModel defaultPrice
          futureHorizon (some (if j = 0 then priorId else nextId + j - 1))
          (s + da.realTimeDuration * (j : Int)) := by
  intro n
  induction n with
  | zero =>
    intro priorId nextId s j hj
    rw [rtChain_length] at hj
    exact absurd hj (Nat.not_lt_zero j)
  | succ m ih =>
    intro priorId nextId s j hj
    cases j with
    | zero =>
      simp only [DayAheadAuction.rtChain, List.get]
      norm_num
    | succ k =>
      have hk : k < (DayAheadAuction.rtChain da refinedId priceModel defaultPrice
          futureHorizon nextId (nextId + 1) (s + da.realTimeDuration) m).length := by
        rw [rtChain_length]
        rw [rtChain_length] at hj
        omega
      have hstep : (DayAheadAuction.rtChain da refinedId priceModel defaultPrice
          futureHorizon priorId nextId s (m + 1)).get ⟨k + 1, hj⟩ =
          (DayAheadAuction.rtChain da refinedId priceModel defaultPrice futureHorizon
            nextId (nextId + 1) (s + da.realTimeDuration) m).get ⟨k, hk⟩ := rfl
      rw [hstep, ih]
      have h1 : nextId + 1 + k = nextId + (k + 1) := by omega
      have h2 : (if k = 0 then nextId else nextId + 1 + k - 1) = nextId + k := by
        cases k with
        | zero => simp
        | succ k2 => rw [if_neg (Nat.succ_ne_zero k2)]; omega
      have h3 : (if k + 1 = 0 then priorId else nextId + (k + 1) - 1) = nextId + k := by
        rw [if_neg (Nat.succ_ne_zero k)]; omega
      have h4 : s + da.realTimeDuration + da.realTimeDuration * (k : Int) =
          s + da.realTimeDuration * ((k : Int) + 1) := by ring
      rw [h2, h3, h1]
      push_cast
      rw [h4]

/-- Helper: starting from a market list whose unique newest "Real-Time
Auction" market is `pm`, `n` iterations of the spawn loop (with sufficient
fuel and a positive duration) produce exactly the chain `rtChain` rooted at
`pm`, appending each new market to the node's market list. -/
theorem spawnGo_chain (da : DayAheadParams) (refinedId : Nat)
    (hd : 0 < da.realTimeDuration) :
    ∀ (n fuel : Nat), n ≤ fuel →
    ∀ (s : Int) (A : List SpawnMarket) (pm : SpawnMarket) (nid : Nat)
      (sp : List SpawnMarket), A.filter isNewestRealTime = [pm] →
      ∃ A2, DayAheadAuction.spawnRealTimeLoopGo da refinedId
          (s + da.realTimeDuration * (n : Int)) fuel s (SpawnState.mk A nid sp) =
          SpawnState.mk A2 (nid + n)
            (sp ++ DayAheadAuction.rtChain da refinedId pm.priceModel pm.defaultPrice
              pm.futureHorizon pm.id nid s n) ∧
        A2.map (fun m => m.id) = A.map (fun m => m.id) ++
          (DayAheadAuction.rtChain da refinedId pm.priceModel pm.defaultPrice
            pm.futureHorizon pm.id nid s n).map (fun m => m.id) := by
  intro n
  induction n with
  | zero =>
    intro fuel _ s A pm nid sp _
    refine ⟨A, ?_, by simp [DayAheadAuction.rtChain]⟩
    have hstop : ∀ f, DayAheadAuction.spawnRealTimeLoopGo da refinedId
        (s + da.realTimeDuration * ((0 : Nat) : Int)) f s (SpawnState.mk A nid sp) =
        SpawnState.mk A nid sp := by
      intro f
      cases f with
      | zero => rfl
      | succ f2 =>
        simp only [DayAheadAuction.spawnRealTimeLoopGo]
        rw [if_neg]
        rintro ⟨hlt, -⟩
        simp only [Nat.cast_zero, mul_zero, add_zero] at hlt
        exact lt_irrefl s hlt
    rw [hstop fuel]
    simp [DayAheadAuction.rtChain]
  | succ m ih =>
    intro fuel hfuel s A pm nid sp hpm
    cases fuel with
    | zero => exact absurd hfuel (by omega)
    | succ f =>
      have hcond : s < s + da.realTimeDuration * ((m + 1 : Nat) : Int) ∧
          0 < da.realTimeDuration := by
        refine ⟨?_, hd⟩
        have hpos : 0 < da.realTimeDuration * ((m : Int) + 1) :=
          mul_pos hd (by positivity)
        push_cast
        omega
      simp only [DayAheadAuction.spawnRealTimeLoopGo]
      rw [if_pos hcond]
      have hspawn : DayAheadAuction.spawnOneRealTime da refinedId s (SpawnState.mk A nid sp) =
          SpawnState.mk (clearFirstNewestRealTime A ++
              [mkRealTimeMarket nid refinedId da.realTimeDuration pm.priceModel
                pm.defaultPrice pm.futureHorizon (some pm.id) s]) (nid + 1)
            (sp ++ [mkRealTimeMarket nid refinedId da.realTimeDuration pm.priceModel
              pm.defaultPrice pm.futureHorizon (some pm.id) s]) := by
        unfold DayAheadAuction.spawnOneRealTime
        have hfind : findPriorRealTime A = some pm := by
          unfold findPriorRealTime
          rw [hpm]
          rfl
        rw [hfind]
      rw [hspawn]
      have hpm2 : (clearFirstNewestRealTime A ++
          [mkRealTimeMarket nid refinedId da.realTimeDuration pm.priceModel pm.defaultPrice
            pm.futureHorizon (some pm.id) s]).filter isNewestRealTime =
          [mkRealTimeMarket nid refinedId da.realTimeDuration pm.priceModel pm.defaultPrice
            pm.futureHorizon (some pm.id) s] := by
        rw [List.filter_append, clearFirst_of_head A pm [] hpm]
        simp [isNewestRealTime_mk]
      have hend : s + da.realTimeDuration * ((m + 1 : Nat) : Int) =
          (s + da.realTimeDuration) + da.realTimeDuration * ((m : Nat) : Int) := by
        push_cast
        ring
      rw [hend]
      rcases ih f (by omega) (s + da.realTimeDuration) _ _ (nid + 1) _ hpm2
        with ⟨A2, hgo, hids⟩
      have hp1 : (mkRealTimeMarket nid refinedId da.realTimeDuration pm.priceModel
          pm.defaultPrice pm.futureHorizon (some pm.id) s).priceModel = pm.priceModel := rfl
      have hp2 : (mkRealTimeMarket nid refinedId da.realTimeDuration pm.priceModel
          pm.defaultPrice pm.futureHorizon (some pm.id) s).defaultPrice = pm.defaultPrice := rfl
      have hp3 : (mkRealTimeMarket nid refinedId da.realTimeDuration pm.priceModel
          pm.defaultPrice pm.futureHorizon (some pm.id) s).futureHorizon =
          pm.futureHorizon := rfl
      have hp4 : (mkRealTimeMarket nid refinedId da.realTimeDuration pm.priceModel
          pm.defaultPrice pm.futureHorizon (some pm.id) s).id = nid := rfl
      rw [hp1, hp2, hp3, hp4] at hgo hids
      refine ⟨A2, ?_, ?_⟩
      · rw [hgo]
        have hnid : nid + 1 + m = nid + (m + 1) := by omega
        rw [hnid]
        have hsp : (sp ++ [mkRealTimeMarket nid refinedId da.realTimeDuration pm.priceModel
            pm.defaultPrice pm.futureHorizon (some pm.id) s]) ++
            DayAheadAuction.rtChain da refinedId pm.priceModel pm.defaultPrice
              pm.futureHorizon nid (nid + 1) (s + da.realTimeDuration) m =
            sp ++ DayAheadAuction.rtChain da refinedId pm.priceModel pm.defaultPrice
              pm.futureHorizon pm.id nid s (m + 1) := by
          rw [List.append_assoc]
          rfl
        rw [hsp]
      · rw [hids, List.map_append, clearFirst_map_id]
        simp only [DayAheadAuction.rtChain, List.map_cons, List.map_append]
        rw [List.append_assoc]
        rfl

/-- Claim C6: for a day-ahead market interval hour (duration 60 minutes) with
real-time refinement duration 5 minutes, starting from a node whose unique
newest "Real-Time Auction" market is `pm`, the spawn loop creates exactly 12
real-time markets: the spawned list is the chain rooted at `pm` (so each new
market inherits `priceModel`, `defaultPrice` and `futureHorizon` from `pm` and
is chained to the previously newest market through `priorMarketInSeries`),
every spawned market has `marketClearingTime` equal to its sub-interval start
minus 5 minutes, interval duration 5, series name "Real-Time Auction",
`check_intervals` and `check_marginal_prices` invoked, and all are appended to
the node's market list. -/
theorem claim_C6 (da : DayAheadParams) (refinedId : Nat) (s : Int) (st : SpawnState)
    (pm : SpawnMarket) (hda : da.realTimeDuration = 5)
    (hpm : st.markets.filter isNewestRealTime = [pm]) :
    (∃ A2, DayAheadAuction.spawnRealTimeLoop da refinedId s (s + 60) st =
        SpawnState.mk A2 (st.nextId + 12)
          (st.spawned ++ DayAheadAuction.rtChain da refinedId pm.priceModel pm.defaultPrice
            pm.futureHorizon pm.id st.nextId s 12) ∧
      A2.map (fun m => m.id) = st.markets.map (fun m => m.id) ++
        (DayAheadAuction.rtChain da refinedId pm.priceModel pm.defaultPrice pm.futureHorizon
          pm.id st.nextId s 12).map (fun m => m.id)) ∧
    (DayAheadAuction.rtChain da refinedId pm.priceModel pm.defaultPrice pm.futureHorizon
      pm.id st.nextId s 12).length = 12 ∧
    ∀ j (hj : j < (DayAheadAuction.rtChain da refinedId pm.priceModel pm.defaultPrice
        pm.futureHorizon pm.id st.nextId s 12).length),
      ((DayAheadAuction.rtChain da refinedId pm.priceModel pm.defaultPrice pm.futureHorizon
        pm.id st.nextId s 12).get ⟨j, hj⟩).marketClearingTime = s + 5 * (j : Int) - 5 ∧
      ((DayAheadAuction.rtChain da refinedId pm.priceModel pm.defaultPrice pm.futureHorizon
        pm.id st.nextId s 12).get ⟨j, hj⟩).intervalDuration = 5 ∧
      ((DayAheadAuction.rtChain da refinedId pm.priceModel pm.defaultPrice pm.futureHorizon
        pm.id st.nextId s 12).get ⟨j, hj⟩).id = st.nextId + j ∧
      ((DayAheadAuction.rtChain da refinedId pm.priceModel pm.defaultPrice pm.futureHorizon
        pm.id st.nextId s 12).get ⟨j, hj⟩).priorMarketInSeries =
        some (if j = 0 then pm.id else st.nextId + j - 1) ∧
      ((DayAheadAuction.rtChain da refinedId pm.priceModel pm.defaultPrice pm.futureHorizon
        pm.id st.nextId s 12).get ⟨j, hj⟩).marketSeriesName = "Real-Time Auction" ∧
      ((DayAheadAuction.rtChain da refinedId pm.priceModel pm.defaultPrice pm.futureHorizon
        pm.id st.nextId s 12).get ⟨j, hj⟩).priceModel = pm.priceModel ∧
      ((DayAheadAuction.rtChain da refinedId pm.priceModel pm.defaultPrice pm.futureHorizon
        pm.id st.nextId s 12).get ⟨j, hj⟩).defaultPrice = pm.defaultPrice ∧
      ((DayAheadAuction.rtChain da refinedId pm.priceModel pm.defaultPrice pm.futureHorizon
        pm.id st.nextId s 12).get ⟨j, hj⟩).futureHorizon = pm.futureHorizon ∧
      ((DayAheadAuction.rtChain da refinedId pm.priceModel pm.defaultPrice pm.futureHorizon
        pm.id st.nextId s 12).get ⟨j, hj⟩).marketToBeRefined = some refinedId ∧
      ((DayAheadAuction.rtChain da refinedId pm.priceModel pm.defaultPrice pm.futureHorizon
        pm.id st.nextId s 12).get ⟨j, hj⟩).checkedIntervals = true ∧
      ((DayAheadAuction.rtChain da refinedId pm.priceModel pm.defaultPrice pm.futureHorizon
        pm.id st.nextId s 12).get ⟨j, hj⟩).checkedMarginalPrices = true := by
  have hd : 0 < da.realTimeDuration := by rw [hda]; norm_num
  constructor
  · have hend : s + (60 : Int) = s + da.realTimeDuration * ((12 : Nat) : Int) := by
      rw [hda]; norm_num
    have hfuel : (s + 60 - s).toNat = 60 := by omega
    unfold DayAheadAuction.spawnRealTimeLoop
    rw [hfuel, hend]
    exact spawnGo_chain da refinedId hd 12 60 (by omega) s st.markets pm st.nextId
      st.spawned hpm
  · refine ⟨rtChain_length da refinedId pm.priceModel pm.defaultPrice pm.futureHorizon
      12 pm.id st.nextId s, ?_⟩
    intro j hj
    rw [rtChain_get da refinedId pm.priceModel pm.defaultPrice pm.futureHorizon 12 pm.id
      st.nextId s j hj]
    rw [hda]
    refine ⟨by simp only [mkRealTimeMarket], rfl, rfl, rfl, rfl, rfl, rfl, rfl, rfl,
      rfl, rfl⟩

/-- Witness for claim C6: the hour starting at time 1000 with one prior newest
real-time market (id 50) spawns the twelve-market chain with fresh ids 51-62. -/
theorem claim_C6_witness :
    (∃ A2, DayAheadAuction.spawnRealTimeLoop (DayAheadParams.mk 5 77 9 1440) 100 1000
        (1000 + 60)
        (SpawnState.mk [SpawnMarket.mk 50 "Real-Time Auction" true 0 5 none none 3 4 99
          true true] 51 []) =
        SpawnState.mk A2 (51 + 12)
          ([] ++ DayAheadAuction.rtChain (DayAheadParams.mk 5 77 9 1440) 100 3 4 99 50 51
            1000 12) ∧
      A2.map (fun m => m.id) =
        [SpawnMarket.mk 50 "Real-Time Auction" true 0 5 none none 3 4 99 true
          true].map (fun m => m.id) ++
        (DayAheadAuction.rtChain (DayAheadParams.mk 5 77 9 1440) 100 3 4 99 50 51
          1000 12).map (fun m => m.id)) ∧
    (DayAheadAuction.rtChain (DayAheadParams.mk 5 77 9 1440) 100 3 4 99 50 51
      1000 12).length = 12 :=
  ⟨(claim_C6 (DayAheadParams.mk 5 77 9 1440) 100 1000
      (SpawnState.mk [SpawnMarket.mk 50 "Real-Time Auction" true 0 5 none none 3 4 99
        true true] 51 [])
      (SpawnMarket.mk 50 "Real-Time Auction" true 0 5 none none 3 4 99 true true)
      rfl (by decide)).1,
    (claim_C6 (DayAheadParams.mk 5 77 9 1440) 100 1000
      (SpawnState.mk [SpawnMarket.mk 50 "Real-Time Auction" true 0 5 none none 3 4 99
        true true] 51 [])
      (SpawnMarket.mk 50 "Real-Time Auction" true 0 5 none none 3 4 99 true true)
      rfl (by decide)).2.1⟩

/-- Witness for claim C8: a concrete cascade over one hour starting from one
newest real-time market keeps the key unique. -/
theorem claim_C8_witness :
    (((DayAheadAuction.spawn_markets_rt (DayAheadParams.mk 5 77 9 1440) 100 60 [1000]
      (SpawnState.mk [SpawnMarket.mk 50 "Real-Time Auction" true 0 5 none none 3 4 99
        true true] 51 [])).markets.filter isNewestRealTime)).length ≤ 1 :=
  (claim_C8 (DayAheadParams.mk 5 77 9 1440) 100 60 [1000]
    (SpawnState.mk [SpawnMarket.mk 50 "Real-Time Auction" true 0 5 none none 3 4 99
      true true] 51 [])).2 (by decide)

end Theorems

end VolttronTNS
